import Mathlib

/-!
Verification of the go-aah/router routing library (src/router.go) against its
natural-language specification.

The development shallowly embeds the Go code: Go strings are Lean `String`
values manipulated through their character lists, Go maps are association
lists (`List (String × V)`), Go mutation of a caller-supplied map is modelled
by returning the final map state, and fallible code returns `Except`/`Option`
or an `Option String` error component.

Definitions are translated from `src/router.go`.  The radix-tree file of the
repository (`tree.go`: `node`, `tree.add`, `tree.find`, `countParams`,
`paramByte`, `wildByte`, `suffixCommaValue`, `checkValidationRule`) and the
CORS file (`cors.go`) are not part of `src/`; the definitions that stand in
for them are modelled from the specification text and carry a doc comment
saying so.  Go standard-library collaborators (`path.Clean`, `path.Join`,
`strings.Split`, `strings.ToLower`, `net/url` query encoding) are modelled
by functional definitions of their documented behaviour.
-/

namespace AahRouter

/-! ### Association lists modelling Go maps -/

/-- Go map read `m[k]`: the value stored at key `k`, if present. -/
def lookupKey {α : Type} (k : String) : List (String × α) → Option α
  | [] => none
  | (k2, v) :: rest => if k2 = k then some v else lookupKey k rest

/-- Go `delete(m, k)`: remove the binding of key `k`. -/
def eraseKey {α : Type} (k : String) (l : List (String × α)) : List (String × α) :=
  l.filter (fun kv => kv.1 ≠ k)

/-- Go map write `m[k] = v`: replace the binding of `k`, or append it. -/
def insertKey {α : Type} (k : String) (v : α) : List (String × α) → List (String × α)
  | [] => [(k, v)]
  | (k2, v2) :: rest => if k2 = k then (k, v) :: rest else (k2, v2) :: insertKey k v rest

/-- Keys of an association list. -/
def keysOf {α : Type} (l : List (String × α)) : List String :=
  l.map Prod.fst

@[simp] theorem lookupKey_nil {α : Type} (k : String) :
    lookupKey (α := α) k [] = none := rfl

@[simp] theorem lookupKey_cons {α : Type} (k k2 : String) (v : α) (rest : List (String × α)) :
    lookupKey k ((k2, v) :: rest) = if k2 = k then some v else lookupKey k rest := rfl

@[simp] theorem eraseKey_nil {α : Type} (k : String) :
    eraseKey (α := α) k [] = [] := rfl

theorem eraseKey_cons {α : Type} (k k2 : String) (v : α) (rest : List (String × α)) :
    eraseKey k ((k2, v) :: rest) =
      if k2 = k then eraseKey k rest else (k2, v) :: eraseKey k rest := by
  by_cases h : k2 = k <;> simp [eraseKey, h]

theorem lookupKey_isSome_iff_mem_keys {α : Type} (k : String) (l : List (String × α)) :
    (lookupKey k l).isSome = true ↔ k ∈ keysOf l := by
  induction l with
  | nil => simp [keysOf]
  | cons kv rest ih =>
    obtain ⟨k2, v⟩ := kv
    by_cases h : k2 = k
    · subst h
      simp [keysOf]
    · simp only [lookupKey_cons, if_neg h, keysOf, List.map_cons, List.mem_cons, ih]
      constructor
      · intro hm
        exact Or.inr hm
      · intro hm
        rcases hm with hm | hm
        · exact absurd hm.symm h
        · exact hm

theorem lookupKey_eraseKey_ne {α : Type} (k k2 : String) (l : List (String × α)) (h : k2 ≠ k) :
    lookupKey k2 (eraseKey k l) = lookupKey k2 l := by
  induction l with
  | nil => rfl
  | cons kv rest ih =>
    obtain ⟨k3, v⟩ := kv
    rw [eraseKey_cons]
    by_cases h3 : k3 = k
    · rw [if_pos h3, ih, lookupKey_cons, if_neg]
      rw [h3]
      exact fun he => h he.symm
    · rw [if_neg h3, lookupKey_cons, lookupKey_cons, ih]

theorem lookupKey_eraseKey_self {α : Type} (k : String) (l : List (String × α)) :
    lookupKey k (eraseKey k l) = none := by
  induction l with
  | nil => rfl
  | cons kv rest ih =>
    obtain ⟨k3, v⟩ := kv
    rw [eraseKey_cons]
    by_cases h3 : k3 = k
    · rw [if_pos h3, ih]
    · rw [if_neg h3, lookupKey_cons, if_neg h3, ih]

/-! ### Go string helpers

The embedding works on `String.data`, the character list underlying a Lean
string, which models Go strings over their bytes (the routing code only ever
indexes and slices at ASCII boundaries: `/`, `:`, `*`, `.`). -/

/-- Go `strings.Split(s, "/")`: split on every slash; models the stdlib
function for the one separator the router uses. -/
def goSplitSlash (s : String) : List String :=
  (s.data.splitOn '/').map (fun cs => ⟨cs⟩)

/-- Go `s[0] == c` on a byte: the first character, if any. -/
def headChar (s : String) : Option Char :=
  s.data.head?

/-- Go `s[1:]`: drop the first byte. -/
def strTail (s : String) : String :=
  ⟨s.data.tail⟩

/-- Go `strings.ToLower` (ASCII case folding, as used on host names). -/
def strToLower (s : String) : String :=
  ⟨s.data.map Char.toLower⟩

/-- aah `ess.IsStrEmpty`: true iff the string is empty after trimming
whitespace, i.e. iff every character is whitespace. -/
def isStrEmpty (s : String) : Bool :=
  s.data.all (fun c => c = ' ' ∨ c = '\t' ∨ c = '\n' ∨ c = '\r')

/-- Go `strings.Contains(s, string(c))` for a single character. -/
def containsChar (s : String) (c : Char) : Bool :=
  s.data.contains c

/-- Go `strings.IndexByte(s, c)`: index of the first occurrence, or none. -/
def indexOfChar (s : String) (c : Char) : Option Nat :=
  s.data.findIdx? (fun c2 => c2 = c)

/-- Go `s[i+1:]` by character index. -/
def strDropChars (s : String) (n : Nat) : String :=
  ⟨s.data.drop n⟩

/-- Build the rooted path `/seg1/seg2/...` from a list of segments. -/
def mkPath (segs : List String) : String :=
  ⟨'/' :: List.intercalate ['/'] (segs.map String.data)⟩

/-- Go `strings.Join(l, sep)`. -/
def joinSep (sep : String) : List String → String
  | [] => ""
  | [x] => x
  | x :: y :: rest => x ++ sep ++ joinSep sep (y :: rest)

/-! ### Go `path.Clean` / `path.Join` models

`path.Clean` removes duplicate slashes and resolves `.` and `..` segments;
`path.Join` joins the non-empty arguments with a slash and cleans the
result.  Modelled from the documented Go semantics with a segment stack. -/

/-- One step of the `path.Clean` segment stack: drop empty and `.` segments,
let `..` pop the previous segment (at the root of a rooted path it
disappears; in a relative path unmatched `..` accumulate). -/
def cleanPush (rooted : Bool) (stack : List String) (seg : String) : List String :=
  if seg = "" ∨ seg = "." then stack
  else if seg = ".." then
    match stack with
    | s :: rest => if s = ".." then seg :: s :: rest else rest
    | [] => if rooted then [] else [".."]
  else seg :: stack

/-- Go `path.Clean`. -/
def pathClean (p : String) : String :=
  if p = "" then "."
  else
    let rooted := headChar p = some '/'
    let stack := ((goSplitSlash p).foldl (cleanPush rooted) []).reverse
    if rooted then
      if stack = [] then "/" else mkPath stack
    else
      if stack = [] then "." else joinSep "/" stack

/-- Go `path.Join(a, b)`: drop empty arguments, join with `/`, clean. -/
def pathJoin (a b : String) : String :=
  if a = "" ∧ b = "" then ""
  else if a = "" then pathClean b
  else if b = "" then pathClean a
  else pathClean (a ++ "/" ++ b)

@[simp] theorem exceptBind_err {α β : Type} (e : String) (f : α → Except String β) :
    ((Except.error e : Except String α) >>= f) = Except.error e := rfl

@[simp] theorem exceptBind_ok {α β : Type} (a : α) (f : α → Except String β) :
    ((Except.ok a : Except String α) >>= f) = f a := rfl

/-! ### Route-tree model

Modelled from the spec: the radix-tree implementation (`tree.go`, providing
`node`, `tree.add`, `tree.find`, `countParams`, `paramByte = ':'`,
`wildByte = '*'`) is not under `src/`.  The model is a segment-level trie
with the observable behaviour section 4.1 of the spec describes: literal
matching is byte-exact, a `:param` edge consumes one non-empty segment, a
`*wild` edge consumes the entire remaining path including its leading
slash, a parameter or wildcard edge is exclusive with static edges at the
same position, a parameter edge fixes its name, a duplicate terminal is an
insertion error, and an input whose trailing slash must be added or removed
to match yields `rts = true` with no payload. -/

/-- A trie node: optional terminal payload (the route name), static children
keyed by segment, at most one parameter child, at most one catch-all edge
(name and payload). -/
structure TrieNode where
  value : Option String := none
  children : List (String × TrieNode) := []
  param : Option (String × TrieNode) := none
  wild : Option (String × String) := none

/-- The empty trie node. -/
def TrieNode.empty : TrieNode :=
  ⟨none, [], none, none⟩

/-- Split a registered pattern into its segments (patterns are rooted and
clean, so the root pattern is the empty segment list). -/
def patternSegs (p : String) : List String :=
  if p = "/" then [] else (goSplitSlash p).drop 1

/-- Split a request path into the segments `treeFind` walks.  A trailing
slash shows up as a final empty segment. -/
def findSegs (p : String) : List String :=
  if p = "/" then [] else (goSplitSlash p).drop 1

/-- Modelled from the spec: `tree.add` (section 4.1).  Inserts a pattern,
given as segments, with its payload. -/
def nodeAdd : TrieNode → List String → String → Except String TrieNode
  | n, [], payload =>
    match n.value with
    | some _ => .error "aah/router: node exists"
    | none => .ok { n with value := some payload }
  | n, seg :: rest, payload =>
    if headChar seg = some ':' then
      let name := strTail seg
      if !n.children.isEmpty || n.wild.isSome then
        .error "aah/router: parameter edge conflicts with existing edge"
      else
        match n.param with
        | some (pname, child) =>
          if pname = name then do
            let child2 ← nodeAdd child rest payload
            .ok { n with param := some (pname, child2) }
          else
            .error "aah/router: parameter based edge already exists"
        | none => do
          let child2 ← nodeAdd TrieNode.empty rest payload
          .ok { n with param := some (name, child2) }
    else if headChar seg = some '*' then
      if !rest.isEmpty then
        .error "aah/router: catch-all must be the final path segment"
      else if !n.children.isEmpty || n.param.isSome || n.wild.isSome then
        .error "aah/router: catch-all conflicts with existing edge"
      else
        .ok { n with wild := some (strTail seg, payload) }
    else
      if n.param.isSome || n.wild.isSome then
        .error "aah/router: segment conflicts with existing wildcard edge"
      else
        match lookupKey seg n.children with
        | some child => do
          let child2 ← nodeAdd child rest payload
          .ok { n with children := insertKey seg child2 n.children }
        | none => do
          let child2 ← nodeAdd TrieNode.empty rest payload
          .ok { n with children := insertKey seg child2 n.children }

/-- Modelled from the spec: `tree.add` on a pattern string. -/
def treeAdd (n : TrieNode) (path payload : String) : Except String TrieNode :=
  nodeAdd n (patternSegs path) payload

/-- Modelled from the spec: the walk of `tree.find` (section 4.1), returning
the terminal payload, the accumulated path parameters, and the
redirect-trailing-slash flag. -/
def nodeFind : TrieNode → List String → List (String × String) →
    Option String × List (String × String) × Bool
  | n, [], ps =>
    match n.value with
    | some v => (some v, ps, false)
    | none => (none, ps, n.wild.isSome)
  | n, seg :: rest, ps =>
    if seg = "" ∧ rest = [] then
      (none, ps, n.value.isSome)
    else
      match n.wild with
      | some (wname, payload) =>
        (some payload, ps ++ [(wname, "/" ++ joinSep "/" (seg :: rest))], false)
      | none =>
        match lookupKey seg n.children with
        | some child => nodeFind child rest ps
        | none =>
          match n.param with
          | some (pname, child) =>
            if seg = "" then (none, ps, false)
            else nodeFind child rest (ps ++ [(pname, seg)])
          | none => (none, ps, false)

/-- Modelled from the spec: `tree.find` on a path string. -/
def treeFind (n : TrieNode) (path : String) :
    Option String × List (String × String) × Bool :=
  nodeFind n (findSegs path) []

/-- Modelled from the spec: `countParams` of `tree.go` — the number of
`:param` / `*wild` parameters in a pattern. -/
def countParams (path : String) : Nat :=
  ((goSplitSlash path).filter
    (fun s => headChar s = some ':' ∨ headChar s = some '*')).length

/-- Modelled from the spec: `suffixCommaValue` — comma-joins the allowed
method list. -/
def suffixCommaValue (s v : String) : String :=
  if s = "" then v else s ++ ", " ++ v

/-! ### Go `net/url` query-encoding model

`url.Values.Encode` percent-encodes each key and value with `QueryEscape`
and emits `k=v` pairs joined by `&`, with the keys in sorted (byte-wise,
i.e. alphabetical) order. -/

/-- The UTF-8 bytes of a code point. -/
def utf8Bytes (n : Nat) : List Nat :=
  if n < 0x80 then [n]
  else if n < 0x800 then [0xC0 + n / 64, 0x80 + n % 64]
  else if n < 0x10000 then [0xE0 + n / 4096, 0x80 + n / 64 % 64, 0x80 + n % 64]
  else [0xF0 + n / 262144, 0x80 + n / 4096 % 64, 0x80 + n / 64 % 64, 0x80 + n % 64]

/-- Upper-case hexadecimal digit. -/
def hexDigit (n : Nat) : Char :=
  if n < 10 then Char.ofNat (48 + n) else Char.ofNat (55 + n)

/-- Characters `QueryEscape` leaves unescaped: ASCII letters, digits and
`-`, `_`, `.`, `~`. -/
def isUnreservedChar (c : Char) : Bool :=
  (('a' ≤ c && c ≤ 'z') || ('A' ≤ c && c ≤ 'Z') || ('0' ≤ c && c ≤ '9')
    || c = '-' || c = '_' || c = '.' || c = '~')

/-- Go `url.QueryEscape` of a single character. -/
def queryEscapeChar (c : Char) : List Char :=
  if isUnreservedChar c then [c]
  else if c = ' ' then ['+']
  else (utf8Bytes c.toNat).flatMap (fun b => ['%', hexDigit (b / 16), hexDigit (b % 16)])

/-- Go `url.QueryEscape`. -/
def queryEscape (s : String) : String :=
  ⟨s.data.flatMap queryEscapeChar⟩

/-- Byte-wise (here: code-point-wise) lexicographic order on strings, the
order `sort.Strings` uses inside `url.Values.Encode`. -/
def charListLe : List Char → List Char → Bool
  | [], _ => true
  | _ :: _, [] => false
  | c1 :: r1, c2 :: r2 =>
    if c1 = c2 then charListLe r1 r2 else decide (c1.toNat ≤ c2.toNat)

/-- Insert a pair into a key-sorted list of pairs. -/
def insertSortedPair (kv : String × String) : List (String × String) → List (String × String)
  | [] => [kv]
  | kv2 :: rest =>
    if charListLe kv.1.data kv2.1.data then kv :: kv2 :: rest
    else kv2 :: insertSortedPair kv rest

/-- Sort pairs by key (insertion sort), as `url.Values.Encode` sorts keys. -/
def sortPairs : List (String × String) → List (String × String)
  | [] => []
  | kv :: rest => insertSortedPair kv (sortPairs rest)

/-- Go `url.Values.Encode` for single-valued keys: sort by key, escape, join
with `&`. -/
def valuesEncode (vs : List (String × String)) : String :=
  joinSep "&"
    ((sortPairs vs).map (fun kv => queryEscape kv.1 ++ "=" ++ queryEscape kv.2))

/-- Go `shouldEscape(b, encodePath)` (net/url): the bytes `URL.String`
percent-encodes when it re-serialises a path.  Alphanumerics and the marks
`-._~` stay; of the reserved set `$&+,/:;=?@` only `?` is escaped inside a
path; every other byte (including `%` itself, space, `"<>\{|}` and all
non-ASCII bytes) is escaped. -/
def shouldEscapePathB (b : Nat) : Bool :=
  if (0x61 ≤ b ∧ b ≤ 0x7a) ∨ (0x41 ≤ b ∧ b ≤ 0x5a) ∨ (0x30 ≤ b ∧ b ≤ 0x39) then false
  else if b = 0x2d ∨ b = 0x5f ∨ b = 0x2e ∨ b = 0x7e then false
  else if b = 0x24 ∨ b = 0x26 ∨ b = 0x2b ∨ b = 0x2c ∨ b = 0x2f ∨ b = 0x3a ∨
      b = 0x3b ∨ b = 0x3d ∨ b = 0x3f ∨ b = 0x40 then decide (b = 0x3f)
  else true

/-- Go `shouldEscape(b, encodeFragment)`: as for a path, but the whole
reserved set stays unescaped. -/
def shouldEscapeFragmentB (b : Nat) : Bool :=
  if (0x61 ≤ b ∧ b ≤ 0x7a) ∨ (0x41 ≤ b ∧ b ≤ 0x5a) ∨ (0x30 ≤ b ∧ b ≤ 0x39) then false
  else if b = 0x2d ∨ b = 0x5f ∨ b = 0x2e ∨ b = 0x7e then false
  else if b = 0x24 ∨ b = 0x26 ∨ b = 0x2b ∨ b = 0x2c ∨ b = 0x2f ∨ b = 0x3a ∨
      b = 0x3b ∨ b = 0x3d ∨ b = 0x3f ∨ b = 0x40 then false
  else true

/-- Go `validEncoded(s, mode)` on one byte: an already-escaped path or
fragment may keep the sub-delimiters `!$&'()*+,;=:@`, brackets and `%`
verbatim; any other byte must not need escaping. -/
def validEncodedB (esc : Nat → Bool) (b : Nat) : Bool :=
  if b = 0x21 ∨ b = 0x24 ∨ b = 0x26 ∨ b = 0x27 ∨ b = 0x28 ∨ b = 0x29 ∨
      b = 0x2a ∨ b = 0x2b ∨ b = 0x2c ∨ b = 0x3b ∨ b = 0x3d ∨ b = 0x3a ∨
      b = 0x40 ∨ b = 0x5b ∨ b = 0x5d ∨ b = 0x25 then true
  else ! esc b

/-- The value of an ASCII hexadecimal digit byte, if it is one
(Go `ishex` / `unhex`). -/
def hexVal (b : Nat) : Option Nat :=
  if 0x30 ≤ b ∧ b ≤ 0x39 then some (b - 0x30)
  else if 0x61 ≤ b ∧ b ≤ 0x66 then some (b - 0x61 + 10)
  else if 0x41 ≤ b ∧ b ≤ 0x46 then some (b - 0x41 + 10)
  else none

/-- Go `unescape` on bytes: decode every `%XX`, failing on a truncated or
non-hexadecimal escape (`url.EscapeError`). -/
def unescapeBytes : List Nat → Option (List Nat)
  | [] => some []
  | b :: rest =>
    if b = 0x25 then
      match rest with
      | h1 :: h2 :: rest2 =>
        match hexVal h1, hexVal h2 with
        | some v1, some v2 => (unescapeBytes rest2).map (fun l => (16 * v1 + v2) :: l)
        | _, _ => none
      | _ => none
    else (unescapeBytes rest).map (fun l => b :: l)

/-- Go `escape` on bytes, upper-case hexadecimal. -/
def escapeBytes (esc : Nat → Bool) : List Nat → List Nat
  | [] => []
  | b :: rest =>
    if esc b then
      0x25 :: (hexDigit (b / 16)).toNat :: (hexDigit (b % 16)).toNat ::
        escapeBytes esc rest
    else b :: escapeBytes esc rest

/-- The UTF-8 bytes of a character list (a Go string). -/
def charsToBytes : List Char → List Nat
  | [] => []
  | c :: rest => utf8Bytes c.toNat ++ charsToBytes rest

/-- One URL part (path or fragment) through Go's parse / re-serialise pair:
`setPath` / `setFragment` decode the percent escapes, erroring on an
invalid one, and remember the raw form; `EscapedPath` /
`EscapedFragment` return the raw form verbatim when re-escaping the
decoded bytes reproduces it or when every raw byte is `validEncoded`, and
otherwise re-escape the decoded bytes (the escaped output is always plain
ASCII). -/
def reEncodePart (esc : Nat → Bool) (p : List Char) : Option (List Char) :=
  match unescapeBytes (charsToBytes p) with
  | none => none
  | some decoded =>
    if escapeBytes esc decoded = charsToBytes p then some p
    else if (charsToBytes p).all (validEncodedB esc) then some p
    else some ((escapeBytes esc decoded).map Char.ofNat)

/-- Split a character list at the first occurrence of a marker character
(Go `strings.Cut`). -/
def splitAtFirstChar (m : Char) : List Char → List Char × Option (List Char)
  | [] => ([], none)
  | c :: rest =>
    if c = m then ([], some rest)
    else (c :: (splitAtFirstChar m rest).1, (splitAtFirstChar m rest).2)

/-- Go `url.Parse` followed by `URL.String`, for the rooted
`path[?query][#fragment]` strings the reverse-URL methods compose (the
walk always starts at `/`, so a scheme or authority never appears).
`Parse` cuts the fragment first, rejects ASCII control bytes in the
remainder, stores the raw query verbatim, and decodes the path; `String`
re-emits the possibly re-encoded path and fragment around the verbatim
query.  `none` models the `url.Parse` error the code turns into an empty
result. -/
def goURLReString (s : String) : Option String :=
  if (splitAtFirstChar '#' s.data).1.any
      (fun c => c.toNat < 0x20 || c.toNat = 0x7f) then none
  else
    match reEncodePart shouldEscapePathB
        (splitAtFirstChar '?' (splitAtFirstChar '#' s.data).1).1 with
    | none => none
    | some p2 =>
      match (splitAtFirstChar '#' s.data).2 with
      | none =>
        match (splitAtFirstChar '?' (splitAtFirstChar '#' s.data).1).2 with
        | none => some ⟨p2⟩
        | some q => some ⟨p2 ++ '?' :: q⟩
      | some f =>
        match reEncodePart shouldEscapeFragmentB f with
        | none => none
        | some f2 =>
          match (splitAtFirstChar '?' (splitAtFirstChar '#' s.data).1).2 with
          | none => some ⟨p2 ++ '#' :: f2⟩
          | some q => some ⟨p2 ++ '?' :: q ++ '#' :: f2⟩

/-! ### Data model: Route, Domain, Router, requests (src/router.go) -/

/-- `Route` of src/router.go.  `CORS` policies live in the absent `cors.go`
and none of the claims depends on their contents, so a policy is modelled
as an opaque token (`Option Unit`: present or absent).  `MaxBodySize`
parsing (`ess.StrToBytes`) is external to the repository and irrelevant to
the claims; the field stores the configured string. -/
structure Route where
  Name : String := ""
  Path : String := ""
  Method : String := ""
  Controller : String := ""
  Action : String := ""
  ParentName : String := ""
  Auth : String := ""
  MaxBodySize : String := "0kb"
  IsAntiCSRFCheck : Bool := true
  CORS : Option Unit := none
  IsStatic : Bool := false
  Dir : String := ""
  File : String := ""
  ListDir : Bool := false
  validationRules : List (String × String) := []

/-- `Route.IsDir` of src/router.go. -/
def Route.IsDir (r : Route) : Bool :=
  !isStrEmpty r.Dir && isStrEmpty r.File

/-- `Route.IsFile` of src/router.go. -/
def Route.IsFile (r : Route) : Bool :=
  !isStrEmpty r.File

/-- `PathParams.Get` of src/router.go: value of the first matching key,
empty string when absent. -/
def pathParamsGet (pp : List (String × String)) (name : String) : String :=
  match pp with
  | [] => ""
  | (k, v) :: rest => if k = name then v else pathParamsGet rest name

/-- `Domain` of src/router.go. -/
structure Domain where
  Name : String := ""
  Host : String := ""
  Port : String := ""
  IsSubDomain : Bool := false
  MethodNotAllowed : Bool := true
  RedirectTrailingSlash : Bool := true
  AutoOptions : Bool := true
  DefaultAuth : String := ""
  CORS : Option Unit := none
  CORSEnabled : Bool := false
  trees : List (String × TrieNode) := []
  routes : List (String × Route) := []

/-- An incoming request as the router observes it: method, URL path, and
the two headers `Lookup` consults. -/
structure Request where
  Method : String := ""
  Path : String := ""
  HeaderXHTTPMethodOverride : String := ""
  HeaderAccessControlRequestMethod : String := ""

/-- `Domain.AddRoute` of src/router.go.  Go mutates the domain and returns
an error; the embedding returns the error (if any) together with the
resulting domain state.  On a tree-insertion error Go has already created
an empty tree for a previously unseen method, which the embedding mirrors. -/
def Domain.AddRoute (d : Domain) (route : Route) : Option String × Domain :=
  if isStrEmpty route.Method then
    (some "router: method value is empty", d)
  else
    let existing := lookupKey route.Method d.trees
    let tree := existing.getD TrieNode.empty
    let d1 : Domain :=
      match existing with
      | some _ => d
      | none => { d with trees := insertKey route.Method TrieNode.empty d.trees }
    match treeAdd tree route.Path route.Name with
    | .error e => (some e, d1)
    | .ok tree2 =>
      (none, { d1 with
                trees := insertKey route.Method tree2 d1.trees,
                routes := insertKey route.Name route d1.routes })

/-- `Domain.lookupRouteTree` of src/router.go. -/
def Domain.lookupRouteTree (d : Domain) (req : Request) : Option TrieNode :=
  match lookupKey req.Method d.trees with
  | some tree => some tree
  | none =>
    if req.Method = "OPTIONS" ∧ d.CORSEnabled then
      lookupKey req.HeaderAccessControlRequestMethod d.trees
    else
      none

/-- The body of `Domain.Lookup` after the method override has been applied:
resolve the per-method tree and walk it. -/
def Domain.lookupCore (d : Domain) (req2 : Request) :
    Option Route × Option (List (String × String)) × Bool :=
  match d.lookupRouteTree req2 with
  | none => (none, none, false)
  | some tree =>
    let fr := treeFind tree req2.Path
    match fr.1 with
    | some routeName => (lookupKey routeName d.routes, some fr.2.1, fr.2.2)
    | none =>
      if fr.2.2 then (none, none, true)
      else (none, none, false)

/-- `Domain.Lookup` of src/router.go.  The HTTP method override is applied
first (only for `POST`), then the per-method tree is resolved and walked. -/
def Domain.Lookup (d : Domain) (req : Request) :
    Option Route × Option (List (String × String)) × Bool :=
  d.lookupCore
    (if !isStrEmpty req.HeaderXHTTPMethodOverride ∧ req.Method = "POST" then
      { req with Method := req.HeaderXHTTPMethodOverride }
    else req)

/-- `Domain.LookupByName` of src/router.go. -/
def Domain.LookupByName (d : Domain) (name : String) : Option Route :=
  lookupKey name d.routes

/-- `Domain.Allowed` of src/router.go. -/
def Domain.Allowed (d : Domain) (requestMethod path : String) : String :=
  if path = "*" then
    d.trees.foldl
      (fun allowed mt =>
        if mt.1 = "OPTIONS" then allowed else suffixCommaValue allowed mt.1)
      ""
  else
    d.trees.foldl
      (fun allowed mt =>
        if mt.1 = requestMethod ∨ mt.1 = "OPTIONS" then allowed
        else
          match (treeFind mt.2 path).1 with
          | some _ => suffixCommaValue allowed mt.1
          | none => allowed)
      ""

/-! ### Reverse URL construction (src/router.go)

Go's `args map[string]interface{}` is modelled as an association list with
values already stringified (`fmt.Sprintf("%v", arg)` is the identity on the
strings the embedding manipulates).  `ReverseURLm` mutates the caller's map
with `delete`; the embedding returns the final map state alongside the
result string. -/

/-- The segment walk of `Domain.ReverseURLm` (src/router.go lines 491-510):
skip empty segments, substitute and delete `:`/`*` arguments, join literal
segments.  Returns `none` as first component when a parameter is missing
from the map, together with the map state reached so far. -/
def reverseComposeGo :
    List String → String → List (String × String) →
      Option String × List (String × String)
  | [], acc, args => (some acc, args)
  | seg :: rest, acc, args =>
    if isStrEmpty seg then reverseComposeGo rest acc args
    else if headChar seg = some ':' ∨ headChar seg = some '*' then
      let argName := strTail seg
      match lookupKey argName args with
      | some v => reverseComposeGo rest (pathJoin acc v) (eraseKey argName args)
      | none => (none, args)
    else
      reverseComposeGo rest (pathJoin acc seg) args

/-- `Domain.ReverseURLm` of src/router.go: compose a reverse URL from named
arguments; leftover arguments become the query string.  Returns the result
("" on any failure) and the final state of the caller's argument map. -/
def Domain.ReverseURLm (d : Domain) (routeName : String)
    (args : List (String × String)) : String × List (String × String) :=
  match lookupKey routeName d.routes with
  | none => ("", args)
  | some route =>
    let argsLen := args.length
    let pathParamCnt := countParams route.Path
    if pathParamCnt = 0 ∧ argsLen = 0 then
      (route.Path, args)
    else if argsLen < pathParamCnt then
      ("", args)
    else
      match reverseComposeGo ((goSplitSlash route.Path).drop 1) "/" args with
      | (none, args2) => ("", args2)
      | (some reverseURL, args2) =>
        let reverseURL2 :=
          if args2.length > 0 then reverseURL ++ "?" ++ valuesEncode args2
          else reverseURL
        match goURLReString reverseURL2 with
        | none => ("", args2)
        | some u => (u, args2)

/-- The segment walk of `Domain.ReverseURL` (src/router.go lines 568-582):
like the named walk but consuming positional values in order.  The
impossible out-of-values case (Go would panic; the caller has checked the
argument count) yields `none`. -/
def reverseComposePositional :
    List String → String → List String → Option String
  | [], acc, _ => some acc
  | seg :: rest, acc, values =>
    if isStrEmpty seg then reverseComposePositional rest acc values
    else if headChar seg = some ':' ∨ headChar seg = some '*' then
      match values with
      | v :: vs => reverseComposePositional rest (pathJoin acc v) vs
      | [] => none
    else
      reverseComposePositional rest (pathJoin acc seg) values

/-- `Domain.ReverseURL` of src/router.go: compose a reverse URL from
positional arguments; "" on any failure. -/
def Domain.ReverseURL (d : Domain) (routeName : String)
    (args : List String) : String :=
  match lookupKey routeName d.routes with
  | none => ""
  | some route =>
    let argsLen := args.length
    let pathParamCnt := countParams route.Path
    if pathParamCnt = 0 ∧ argsLen = 0 then
      route.Path
    else if argsLen > pathParamCnt then
      ""
    else if argsLen < pathParamCnt then
      ""
    else
      match reverseComposePositional (goSplitSlash route.Path) "/" args with
      | none => ""
      | some reverseURL =>
        match goURLReString reverseURL with
        | none => ""
        | some u => u

/-! ### Domain key and Router facade (src/router.go) -/

/-- `Domain.key` of src/router.go: lowercased `host` or `host:port`. -/
def Domain.key (d : Domain) : String :=
  if isStrEmpty d.Port then strToLower d.Host
  else strToLower (d.Host ++ ":" ++ d.Port)

/-- `Router` of src/router.go: the domain index (the config fields are load
plumbing with no observable behaviour of their own). -/
structure Router where
  Domains : List (String × Domain) := []

/-- `Router.FindDomain` of src/router.go: lowercase the request host, try an
exact domain match, then the `*.`-wildcard formed by replacing everything
up to (and including) the first dot, provided that dot is not the first
character. -/
def Router.FindDomain (r : Router) (reqHost : String) : Option Domain :=
  let host := strToLower reqHost
  match lookupKey host r.Domains with
  | some domain => some domain
  | none =>
    match indexOfChar host '.' with
    | some idx =>
      if idx > 0 then lookupKey ("*." ++ strDropChars host (idx + 1)) r.Domains
      else none
    | none => none

/-! ### Configuration model (the forge config tree src/router.go consumes)

The config loader itself is an external collaborator; the router consumes a
parsed tree through typed accessors (`String`, `BoolDefault`, `GetSubConfig`,
`Keys`, `KeysByPath`, `IsExists`).  A config is a list of keyed values;
accessor paths use `.` separators. -/

/-- A configuration value: string, boolean, or nested section. -/
inductive ConfigVal where
  | str (s : String)
  | flag (b : Bool)
  | sec (entries : List (String × ConfigVal))

/-- A configuration section. -/
abbrev Config := List (String × ConfigVal)

/-- Split a dotted accessor path. -/
def splitDots (s : String) : List String :=
  (s.data.splitOn '.').map (fun cs => ⟨cs⟩)

/-- Walk a dotted path through nested sections. -/
def cfgGetKeys : Config → List String → Option ConfigVal
  | _, [] => none
  | cfg, [k] => lookupKey k cfg
  | cfg, k :: rest =>
    match lookupKey k cfg with
    | some (.sec entries) => cfgGetKeys entries rest
    | _ => none

/-- Config value at a dotted path. -/
def cfgGet (cfg : Config) (path : String) : Option ConfigVal :=
  cfgGetKeys cfg (splitDots path)

/-- Accessor `String`: the string at a path, with its found flag. -/
def cfgString (cfg : Config) (path : String) : Option String :=
  match cfgGet cfg path with
  | some (.str s) => some s
  | _ => none

/-- Accessor `StringDefault`. -/
def cfgStringDefault (cfg : Config) (path dflt : String) : String :=
  (cfgString cfg path).getD dflt

/-- Accessor `BoolDefault`. -/
def cfgBoolDefault (cfg : Config) (path : String) (dflt : Bool) : Bool :=
  match cfgGet cfg path with
  | some (.flag b) => b
  | _ => dflt

/-- Accessor `GetSubConfig`. -/
def cfgGetSubConfig (cfg : Config) (path : String) : Option Config :=
  match cfgGet cfg path with
  | some (.sec entries) => some entries
  | _ => none

/-- Accessor `Keys`. -/
def cfgKeys (cfg : Config) : List String :=
  keysOf cfg

/-- Accessor `KeysByPath`. -/
def cfgKeysByPath (cfg : Config) (path : String) : List String :=
  match cfgGetSubConfig cfg path with
  | some entries => keysOf entries
  | none => []

/-- Accessor `IsExists`. -/
def cfgIsExists (cfg : Config) (path : String) : Bool :=
  (cfgGet cfg path).isSome

theorem sizeOf_lookupKey_lt {k : String} {cfg : Config} {v : ConfigVal}
    (h : lookupKey k cfg = some v) : sizeOf v < sizeOf cfg := by
  induction cfg with
  | nil => simp [lookupKey] at h
  | cons kv rest ih =>
    obtain ⟨k2, v2⟩ := kv
    rw [lookupKey_cons] at h
    by_cases h2 : k2 = k
    · rw [if_pos h2] at h
      cases h
      simp
      omega
    · rw [if_neg h2] at h
      have := ih h
      simp
      omega

theorem sizeOf_cfgGetKeys_lt {cfg : Config} {keys : List String} {v : ConfigVal}
    (h : cfgGetKeys cfg keys = some v) : sizeOf v < sizeOf cfg := by
  induction keys generalizing cfg with
  | nil => simp [cfgGetKeys] at h
  | cons k rest ih =>
    cases rest with
    | nil => exact sizeOf_lookupKey_lt h
    | cons k2 rest2 =>
      rw [cfgGetKeys] at h
      case cons.x_2 => exact fun hc => List.noConfusion hc
      cases h2 : lookupKey k cfg with
      | none => rw [h2] at h; cases h
      | some v2 =>
        rw [h2] at h
        cases v2 with
        | str s => cases h
        | flag b => cases h
        | sec entries =>
          have hlt := sizeOf_lookupKey_lt h2
          have hlt2 := ih h
          simp at hlt
          omega

theorem sizeOf_cfgGetSubConfig_lt {cfg : Config} {path : String} {sub : Config}
    (h : cfgGetSubConfig cfg path = some sub) : sizeOf sub < sizeOf cfg := by
  rw [cfgGetSubConfig] at h
  cases h2 : cfgGet cfg path with
  | none => rw [h2] at h; cases h
  | some v =>
    rw [h2] at h
    cases v with
    | str s => cases h
    | flag b => cases h
    | sec entries =>
      cases h
      have := sizeOf_cfgGetKeys_lt h2
      simp at this
      omega

/-! ### More Go string helpers used by the parsers -/

/-- Go `strings.ToUpper` (ASCII). -/
def strToUpper (s : String) : String :=
  ⟨s.data.map Char.toUpper⟩

/-- Go whitespace for `strings.TrimSpace`. -/
def isSpaceChar (c : Char) : Bool :=
  c = ' ' ∨ c = '\t' ∨ c = '\n' ∨ c = '\r'

/-- Go `strings.TrimSpace`. -/
def trimSpace (s : String) : String :=
  ⟨((s.data.dropWhile isSpaceChar).reverse.dropWhile isSpaceChar).reverse⟩

/-- Go `strings.Split(s, ",")`. -/
def splitComma (s : String) : List String :=
  (s.data.splitOn ',').map (fun cs => ⟨cs⟩)

/-- `HTTPMethodActionMap` of src/router.go: default controller action per
HTTP method. -/
def HTTPMethodActionMap : List (String × String) :=
  [("GET", "Index"), ("POST", "Create"), ("PUT", "Update"), ("PATCH", "Update"),
   ("DELETE", "Delete"), ("OPTIONS", "Options"), ("HEAD", "Head"), ("TRACE", "Trace")]

/-- `IsDefaultAction` of src/router.go. -/
def IsDefaultAction (action : String) : Bool :=
  HTTPMethodActionMap.any (fun kv => kv.2 = action)

/-- Modelled from the spec: `findActionByHTTPMethod` (helper file not under
src/) — the default action for a method, or "". -/
def findActionByHTTPMethod (method : String) : String :=
  (lookupKey method HTTPMethodActionMap).getD ""

/-- Modelled from the spec (section 4.4.3): `checkValidationRule` — split a
`:param[constraint]` segment into the clean segment and the constraint
expression; report whether bracket syntax exists and whether it is valid. -/
def checkValidationRule (seg : String) : String × String × Bool × Bool :=
  if seg.data.contains '[' ∨ seg.data.contains ']' ∨ seg.data.contains ' ' then
    match seg.data.findIdx? (fun c => c = '[') with
    | none => (seg, "", true, false)
    | some i =>
      let param : String := ⟨seg.data.take i⟩
      let inner : List Char := seg.data.drop (i + 1)
      if inner.getLast? = some ']' ∧ ¬param.data.contains ' '
          ∧ ¬inner.dropLast.contains ']' ∧ ¬inner.dropLast.contains '[' then
        (param, ⟨inner.dropLast⟩, true, true)
      else
        (seg, "", true, false)
  else
    (seg, "", false, false)

/-! ### Static section parser (src/router.go `parseStaticSection`) -/

/-- One entry of the `static` section (src/router.go lines 802-864). -/
def parseStaticEntry (cfg : Config) (routeName : String) : Except String Route :=
  match cfgString cfg (routeName ++ ".path") with
  | none => .error ("'static." ++ routeName ++ ".path' key is missing")
  | some routePath =>
    if ¬(headChar routePath = some '/') then
      .error ("'static." ++ routeName ++ ".path' [" ++ routePath ++
        "], path must begin with '/'")
    else if containsChar routePath ':' ∨ containsChar routePath '*' then
      .error ("'static." ++ routeName ++ ".path' parameters can not be used with static")
    else
      let path0 := pathClean routePath
      let dirRes := cfgString cfg (routeName ++ ".dir")
      let fileRes := cfgString cfg (routeName ++ ".file")
      if dirRes.isSome ∧ fileRes.isSome then
        .error ("'static." ++ routeName ++ ".dir' & 'static." ++ routeName ++
          ".file' key(s) cannot be used together")
      else if dirRes.isNone ∧ fileRes.isNone then
        .error ("either 'static." ++ routeName ++ ".dir' or 'static." ++ routeName ++
          ".file' key have to be present")
      else
        let path1 := if dirRes.isSome then pathJoin path0 "*filepath" else path0
        let routeFile := fileRes.getD ""
        let dirResolved : Except String String :=
          if fileRes.isSome then
            match cfgString cfg (routeName ++ ".base_dir") with
            | some dir => .ok dir
            | none =>
              if ¬(headChar routeFile = some '/') then
                match cfgString cfg "public_assets.dir" with
                | some dir => .ok dir
                | none =>
                  .error ("'static." ++ routeName ++ ".base_dir' value is missing")
              else .ok (dirRes.getD "")
          else .ok (dirRes.getD "")
        match dirResolved with
        | .error e => .error e
        | .ok routeDir =>
          .ok { Name := routeName, Method := "GET", IsStatic := true,
                Path := path1, Dir := routeDir, File := routeFile,
                ListDir := cfgBoolDefault cfg (routeName ++ ".list") false }

/-- The key loop of `parseStaticSection`. -/
def parseStaticGo (cfg : Config) : List String → Except String (List Route)
  | [] => .ok []
  | name :: rest => do
    let r ← parseStaticEntry cfg name
    let more ← parseStaticGo cfg rest
    .ok (r :: more)

/-- `parseStaticSection` of src/router.go. -/
def parseStaticSection (cfg : Config) : Except String (List Route) :=
  parseStaticGo cfg (cfgKeys cfg)

/-! ### Routes section parser (src/router.go `parseRoutesSection`) -/

/-- `parentRouteInfo` of src/router.go. -/
structure ParentRouteInfo where
  ParentName : String := ""
  PrefixPath : String := ""
  Controller : String := ""
  Auth : String := ""
  CORS : Option Unit := none
  CORSEnabled : Bool := false

/-- The per-segment loop of `parseRoutesSection` (src/router.go lines
686-709): strip validation rules from `:`/`*` segments, rebuild the actual
route path, collect the rules. -/
def routeSegsWalk (routeName routePath : String) :
    List String → String → List (String × String) →
      Except String (String × List (String × String))
  | [], acc, rules => .ok (acc, rules)
  | seg :: rest, acc, rules =>
    if seg.data.length = 0 then
      routeSegsWalk routeName routePath rest acc rules
    else if headChar seg = some ':' ∨ headChar seg = some '*' then
      let r := checkValidationRule seg
      if r.2.2.1 then
        if r.2.2.2 then
          routeSegsWalk routeName routePath rest (pathJoin acc r.1)
            (insertKey (strTail r.1) r.2.1 rules)
        else
          .error ("'" ++ routeName ++ ".path' has invalid validation rule '" ++
            routePath ++ "'")
      else
        routeSegsWalk routeName routePath rest (pathJoin acc r.1) rules
    else
      routeSegsWalk routeName routePath rest (pathJoin acc seg) rules

/-- `parseRoutesSection` of src/router.go (lines 669-800), written as a
recursion over the section's keys.  The recursive call for a `routes`
sub-section descends into a strictly smaller config. -/
def parseRoutesGo (cfg : Config) (keys : List String) (info : ParentRouteInfo) :
    Except String (List Route) :=
  match keys with
  | [] => .ok []
  | routeName :: restKeys =>
    let pathRes := cfgString cfg (routeName ++ ".path")
    if pathRes.isNone ∧ isStrEmpty info.PrefixPath then
      .error ("'" ++ routeName ++ ".path' key is missing")
    else
      let routePath0 := pathRes.getD ""
      if ¬isStrEmpty routePath0 ∧ ¬(headChar routePath0 = some '/') then
        .error ("'" ++ routeName ++ ".path' [" ++ routePath0 ++
          "], path must begin with '/'")
      else
        let routePath := pathJoin info.PrefixPath routePath0
        match routeSegsWalk routeName routePath
            ((goSplitSlash routePath).drop 1) "/" [] with
        | .error e => .error e
        | .ok walkRes =>
          let actualRoutePath := walkRes.1
          let pathParamRules := walkRes.2
          let notToSkip : Bool :=
            ¬(cfgIsExists cfg (routeName ++ ".routes") ∧
              (¬cfgIsExists cfg (routeName ++ ".action") ∨
               ¬cfgIsExists cfg (routeName ++ ".controller")))
          let routeMethod :=
            strToUpper (cfgStringDefault cfg (routeName ++ ".method") "GET")
          let routeController :=
            cfgStringDefault cfg (routeName ++ ".controller") info.Controller
          if isStrEmpty routeController ∧ notToSkip then
            .error ("'" ++ routeName ++ ".controller' key is missing")
          else
            let routeAction :=
              cfgStringDefault cfg (routeName ++ ".action")
                (findActionByHTTPMethod routeMethod)
            if isStrEmpty routeAction ∧ notToSkip then
              .error ("'" ++ routeName ++
                ".action' key is missing, it seems to be multiple HTTP methods")
            else
              let routeAuth := cfgStringDefault cfg (routeName ++ ".auth") info.Auth
              let routeMaxBodySize :=
                cfgStringDefault cfg (routeName ++ ".max_body_size") "0kb"
              let antiCSRF := cfgBoolDefault cfg (routeName ++ ".anti_csrf_check") true
              let cors : Option Unit :=
                if info.CORSEnabled then
                  match cfgGetSubConfig cfg (routeName ++ ".cors") with
                  | some corsCfg =>
                    if cfgBoolDefault corsCfg "enable" true then some () else none
                  | none => info.CORS
                else none
              let these : List Route :=
                if notToSkip then
                  (splitComma routeMethod).map (fun m =>
                    { Name := routeName, Path := actualRoutePath,
                      Method := trimSpace m, Controller := routeController,
                      Action := routeAction, ParentName := info.ParentName,
                      Auth := routeAuth, MaxBodySize := routeMaxBodySize,
                      IsAntiCSRFCheck := antiCSRF, CORS := cors,
                      validationRules := pathParamRules })
                else []
              match hc : cfgGetSubConfig cfg (routeName ++ ".routes") with
              | some childCfg =>
                match parseRoutesGo childCfg (cfgKeys childCfg)
                    { ParentName := routeName, PrefixPath := routePath,
                      Controller := routeController, Auth := routeAuth,
                      CORS := cors, CORSEnabled := info.CORSEnabled } with
                | .error e => .error e
                | .ok croutes =>
                  match parseRoutesGo cfg restKeys info with
                  | .error e => .error e
                  | .ok more => .ok (these ++ croutes ++ more)
              | none =>
                match parseRoutesGo cfg restKeys info with
                | .error e => .error e
                | .ok more => .ok (these ++ more)
termination_by (sizeOf cfg, keys.length)
decreasing_by
  · exact Prod.Lex.left _ _ (sizeOf_cfgGetSubConfig_lt hc)
  · exact Prod.Lex.right _ (by simp only [List.length_cons]; omega)
  · exact Prod.Lex.right _ (by simp only [List.length_cons]; omega)

/-- `parseRoutesSection` of src/router.go. -/
def parseRoutesSection (cfg : Config) (info : ParentRouteInfo) :
    Except String (List Route) :=
  parseRoutesGo cfg (cfgKeys cfg) info

/-! ### Load pipeline (src/router.go `processRoutesConfig` and helpers) -/

/-- Install a list of parsed routes with `AddRoute`, stopping at the first
error; the domain state reached so far is kept (Go mutates the domain in
place). -/
def addRoutesAll (d : Domain) : List Route → Option String × Domain
  | [] => (none, d)
  | r :: rest =>
    match d.AddRoute r with
    | (some e, d2) => (some e, d2)
    | (none, d2) => addRoutesAll d2 rest

/-- `Router.processStaticRoutes` of src/router.go. -/
def processStaticRoutes (d : Domain) (domainCfg : Config) : Option String × Domain :=
  match cfgGetSubConfig domainCfg "static" with
  | none => (none, d)
  | some staticCfg =>
    match parseStaticSection staticCfg with
    | .error e => (some e, d)
    | .ok routes => addRoutesAll d routes

/-- `Router.processRoutes` of src/router.go. -/
def processRoutes (d : Domain) (domainCfg : Config) : Option String × Domain :=
  match cfgGetSubConfig domainCfg "routes" with
  | none => (none, d)
  | some routesCfg =>
    match parseRoutesSection routesCfg
        { Auth := d.DefaultAuth, CORS := d.CORS,
          CORSEnabled := cfgBoolDefault domainCfg "cors.enable" false } with
    | .error e => (some e, d)
    | .ok routes => addRoutesAll d routes

/-- One iteration of the domain loop of `processRoutesConfig` (src/router.go
lines 242-328): build the domain from its section, then install its static
and application routes.  The CORS section contents live in the absent
`cors.go`; a resolved policy is the opaque token. -/
def processDomain (domainsCfg appCfg : Config) (key : String) : Except String Domain :=
  let domainCfg := (cfgGetSubConfig domainsCfg key).getD []
  match cfgString domainCfg "host" with
  | none => .error ("'" ++ key ++ ".host' key is missing")
  | some host =>
    let port0 := cfgStringDefault domainCfg "port"
      (cfgStringDefault appCfg "server.port" "8080")
    let port := if port0 = "80" ∨ port0 = "443" then "" else port0
    let corsEnabled := cfgBoolDefault domainCfg "cors.enable" false
    let domain : Domain :=
      { Name := cfgStringDefault domainCfg "name" key,
        Host := host, Port := port,
        IsSubDomain := cfgBoolDefault domainCfg "subdomain" false,
        MethodNotAllowed := cfgBoolDefault domainCfg "method_not_allowed" true,
        RedirectTrailingSlash :=
          cfgBoolDefault domainCfg "redirect_trailing_slash" true,
        AutoOptions := cfgBoolDefault domainCfg "auto_options" true,
        DefaultAuth := cfgStringDefault domainCfg "default_auth" "",
        CORSEnabled := corsEnabled,
        CORS := if corsEnabled then some () else none,
        trees := [], routes := [] }
    match processStaticRoutes domain domainCfg with
    | (some e, _) => .error e
    | (none, d2) =>
      match processRoutes d2 domainCfg with
      | (some e, _) => .error e
      | (none, d3) => .ok d3

/-- The domain loop of `processRoutesConfig`: on an error the domains
installed so far stay in the map (Go mutates `r.Domains` in place). -/
def processDomainsLoop (domainsCfg appCfg : Config) :
    List String → List (String × Domain) → Option String × List (String × Domain)
  | [], acc => (none, acc)
  | key :: rest, acc =>
    match processDomain domainsCfg appCfg key with
    | .error e => (some e, acc)
    | .ok d => processDomainsLoop domainsCfg appCfg rest (insertKey d.key d acc)

/-- `Router.processRoutesConfig` of src/router.go.  Returns the error (if
any) and the final `Domains` field: `none` models the nil map left when the
`domains` section is missing or empty, `some m` the map allocated before
the loop. -/
def processRoutesConfig (cfg appCfg : Config) :
    Option String × Option (List (String × Domain)) :=
  let domains := cfgKeysByPath cfg "domains"
  if domains.length = 0 then
    (some "router: no domain routes config found", none)
  else
    let domainsCfg := (cfgGetSubConfig cfg "domains").getD []
    let r := processDomainsLoop domainsCfg appCfg domains []
    (r.1, some r.2)

/-! ### Basic facts about the embedding -/

theorem strExt {s t : String} (h : s.data = t.data) : s = t := by
  cases s
  cases t
  cases h
  rfl

theorem strApp_data (s t : String) : (s ++ t).data = s.data ++ t.data :=
  String.data_append s t

theorem strApp_assoc (a b c : String) : a ++ b ++ c = a ++ (b ++ c) := by
  apply strExt
  simp [strApp_data]

theorem lookupKey_insertKey_self {α : Type} (k : String) (v : α) (l : List (String × α)) :
    lookupKey k (insertKey k v l) = some v := by
  induction l with
  | nil => simp [insertKey, lookupKey]
  | cons kv rest ih =>
    obtain ⟨k2, v2⟩ := kv
    by_cases h : k2 = k <;> simp [insertKey, lookupKey, h, ih]

theorem lookupKey_insertKey_ne {α : Type} (k k2 : String) (v : α) (l : List (String × α))
    (h : k2 ≠ k) : lookupKey k2 (insertKey k v l) = lookupKey k2 l := by
  have hkk : ¬k = k2 := fun he => h he.symm
  induction l with
  | nil => simp [insertKey, lookupKey, hkk]
  | cons kv rest ih =>
    obtain ⟨k3, v2⟩ := kv
    by_cases h3 : k3 = k
    · subst h3
      rw [insertKey, if_pos rfl, lookupKey_cons, lookupKey_cons, if_neg hkk, if_neg hkk]
    · rw [insertKey, if_neg h3, lookupKey_cons, lookupKey_cons, ih]

/-- The walk of the trie never reports a payload together with the
redirect-trailing-slash flag. -/
theorem nodeFind_not_payload_and_rts (n : TrieNode) (segs : List String)
    (ps : List (String × String)) :
    (nodeFind n segs ps).1.isSome = true → (nodeFind n segs ps).2.2 = false := by
  induction segs generalizing n ps with
  | nil =>
    intro h
    cases hv : n.value with
    | some v => simp [nodeFind, hv]
    | none => simp [nodeFind, hv] at h
  | cons seg rest ih =>
    intro h
    rw [nodeFind] at h ⊢
    by_cases he : seg = "" ∧ rest = []
    · rw [if_pos he] at h
      simp at h
    · rw [if_neg he] at h ⊢
      split at h
      · rfl
      · split at h
        · rename_i child heqc
          exact ih child ps h
        · split at h
          · rename_i pname pchild heqp
            by_cases hs : seg = ""
            · rw [if_pos hs] at h
              simp at h
            · rw [if_neg hs] at h
              rw [if_neg hs]
              exact ih pchild _ h
          · simp at h

/-- The lookup body after method override: one of the three shapes. -/
theorem lookupCore_shapes (d : Domain) (req2 : Request) :
    ((d.lookupCore req2).1.isSome = true ∧ (d.lookupCore req2).2.2 = false) ∨
      ((d.lookupCore req2).1 = none ∧ (d.lookupCore req2).2.2 = true) ∨
      ((d.lookupCore req2).1 = none ∧ (d.lookupCore req2).2.2 = false) := by
  rw [Domain.lookupCore]
  cases ht : d.lookupRouteTree req2 with
  | none => simp
  | some tree =>
    simp only []
    have hrts := nodeFind_not_payload_and_rts tree (findSegs req2.Path) []
    cases hf : (treeFind tree req2.Path).1 with
    | some routeName =>
      simp only [hf]
      have hrts2 : (treeFind tree req2.Path).2.2 = false := by
        apply hrts
        rw [show nodeFind tree (findSegs req2.Path) [] = treeFind tree req2.Path from rfl]
        rw [hf]
        rfl
      cases hr : lookupKey routeName d.routes with
      | some route => exact Or.inl (by simp [hrts2])
      | none => exact Or.inr (Or.inr (by simp [hrts2]))
    | none =>
      simp only [hf]
      by_cases hrts2 : (treeFind tree req2.Path).2.2 = true
      · rw [if_pos hrts2]
        exact Or.inr (Or.inl (by simp))
      · rw [if_neg hrts2]
        simp only [Bool.not_eq_true] at hrts2
        exact Or.inr (Or.inr (by simp [hrts2]))

/-- Claim C2: `Domain.Lookup` returns one of exactly three shapes — a found
route with `rts = false`, no route with `rts = true`, or no route with
`rts = false`; a route is never returned together with `rts = true`. -/
theorem claim_C2 (d : Domain) (req : Request) :
    ((d.Lookup req).1.isSome = true ∧ (d.Lookup req).2.2 = false) ∨
      ((d.Lookup req).1 = none ∧ (d.Lookup req).2.2 = true) ∨
      ((d.Lookup req).1 = none ∧ (d.Lookup req).2.2 = false) := by
  rw [Domain.Lookup]
  exact lookupCore_shapes d _

/-- The first `.` in `X ++ ".rest"` sits at index `X.length` when `X` is
dot-free. -/
theorem findIdx_dot_append (x : List Char) (h : ∀ c ∈ x, c ≠ '.') (r : List Char) :
    (x ++ '.' :: r).findIdx? (fun c => c = '.') = some x.length := by
  induction x with
  | nil => simp [List.findIdx?_cons]
  | cons a as ih => simp_all [List.findIdx?_cons]

/-- Claim C3: `FindDomain` lowercases the host, prefers an exact domain
match, then falls back to the `*.`-wildcard obtained by replacing the first
host label; consequently a router configured with only `*.example.com`
resolves every host `X.example.com` with `X` a non-empty dot-free
(lowercase) label, and does not resolve `example.com` itself. -/
theorem claim_C3 (D : Domain) (X : String) (hne : X ≠ "")
    (hdot : ∀ c ∈ X.data, c ≠ '.') (hlow : strToLower X = X) :
    (∀ (r : Router) (host : String) (d : Domain),
        lookupKey (strToLower host) r.Domains = some d → r.FindDomain host = some d) ∧
    Router.FindDomain ⟨[("*.example.com", D)]⟩ (X ++ ".example.com") = some D ∧
    Router.FindDomain ⟨[("*.example.com", D)]⟩ "example.com" = none := by
  refine ⟨?_, ?_, ?_⟩
  · intro r host d h
    rw [Router.FindDomain]
    simp only [h]
  · have hlow2 : strToLower (X ++ ".example.com") = X ++ ".example.com" := by
      apply strExt
      rw [strToLower, strApp_data, List.map_append]
      have h1 : X.data.map Char.toLower = X.data := congrArg String.data hlow
      rw [h1]
      have h2 : (".example.com" : String).data.map Char.toLower =
          (".example.com" : String).data := by decide
      rw [h2]
    rw [Router.FindDomain]
    simp only [hlow2]
    by_cases hex : ("*.example.com" : String) = X ++ ".example.com"
    · simp [lookupKey, hex]
    · rw [show lookupKey (X ++ ".example.com") [("*.example.com", D)] = none by
        simp [lookupKey, hex]]
      have hidx : indexOfChar (X ++ ".example.com") '.' = some X.data.length := by
        rw [indexOfChar, strApp_data]
        have : (".example.com" : String).data = '.' :: "example.com".data := by decide
        rw [this]
        exact findIdx_dot_append X.data hdot _
      simp only [hidx]
      have hpos : X.data.length > 0 := by
        cases hd : X.data with
        | nil => exact absurd (strExt hd) hne
        | cons a as => simp
      rw [if_pos hpos]
      have hdrop : strDropChars (X ++ ".example.com") (X.data.length + 1) =
          "example.com" := by
        apply strExt
        rw [strDropChars, strApp_data]
        have : (".example.com" : String).data = '.' :: "example.com".data := by decide
        rw [this, show X.data.length + 1 = (X.data ++ ['.']).length by simp]
        rw [show X.data ++ '.' :: "example.com".data =
          (X.data ++ ['.']) ++ "example.com".data by simp]
        exact List.drop_left _ _
      rw [hdrop]
      simp [lookupKey]
  · rw [Router.FindDomain]
    rw [show strToLower "example.com" = "example.com" from by decide]
    have h1 : lookupKey "example.com" [("*.example.com", D)] = none := by
      rw [lookupKey_cons, if_neg (by decide), lookupKey_nil]
    have h2 : lookupKey ("*." ++ strDropChars "example.com" (7 + 1))
        [("*.example.com", D)] = none := by
      rw [show ("*." ++ strDropChars "example.com" (7 + 1)) = "*.com" from by decide]
      rw [lookupKey_cons, if_neg (by decide), lookupKey_nil]
    simp only [h1, show indexOfChar "example.com" '.' = some 7 from by decide]
    simp only [gt_iff_lt, Nat.zero_lt_succ, if_true, h2]

/-- Witness for C3 at `X = "www"`. -/
theorem witness_C3 :
    ("www" : String) ≠ "" ∧ (∀ c ∈ ("www" : String).data, c ≠ '.') ∧
      strToLower "www" = "www" ∧
      Router.FindDomain ⟨[("*.example.com", { Host := "*.example.com" })]⟩
        ("www" ++ ".example.com") = some { Host := "*.example.com" } ∧
      Router.FindDomain ⟨[("*.example.com", { Host := "*.example.com" })]⟩
        "example.com" = none := by
  have h := claim_C3 { Host := "*.example.com" } "www" (by decide) (by decide) (by decide)
  exact ⟨by decide, by decide, by decide, h.2.1, h.2.2⟩

/-! ### Claim C9: the Allowed header -/

theorem strApp_ne_empty_left (a b : String) (h : a ≠ "") : a ++ b ≠ "" := by
  intro hab
  apply h
  apply strExt
  have := congrArg String.data hab
  rw [strApp_data] at this
  have hdata := List.append_eq_nil.mp (by simpa using this)
  simpa using hdata.1

theorem joinSep_cons (sep x : String) (l : List String) (h : l ≠ []) :
    joinSep sep (x :: l) = x ++ sep ++ joinSep sep l := by
  cases l with
  | nil => exact absurd rfl h
  | cons y ys => rfl

theorem foldl_suffixCommaValue_join (l : List String) (acc : String)
    (hl : ∀ x ∈ l, x ≠ "") :
    l.foldl suffixCommaValue acc =
      if acc = "" then joinSep ", " l
      else if l = [] then acc else acc ++ ", " ++ joinSep ", " l := by
  induction l generalizing acc with
  | nil =>
    by_cases ha : acc = "" <;> simp [ha, joinSep]
  | cons x xs ih =>
    have hx : x ≠ "" := hl x (List.mem_cons_self x xs)
    have hxs : ∀ y ∈ xs, y ≠ "" := fun y hy => hl y (List.mem_cons_of_mem x hy)
    by_cases ha : acc = ""
    · subst ha
      rw [List.foldl_cons, show suffixCommaValue "" x = x from if_pos rfl, ih x hxs]
      rw [if_neg hx, if_pos rfl]
      cases xs with
      | nil => simp [joinSep]
      | cons y ys =>
        rw [if_neg (by simp)]
        exact (joinSep_cons ", " x (y :: ys) (by simp)).symm
    · rw [List.foldl_cons, show suffixCommaValue acc x = acc ++ ", " ++ x from if_neg ha]
      have hax : acc ++ ", " ++ x ≠ "" :=
        strApp_ne_empty_left _ _ (strApp_ne_empty_left _ _ ha)
      rw [ih _ hxs, if_neg hax, if_neg ha]
      cases xs with
      | nil => simp [joinSep]
      | cons y ys =>
        rw [if_neg (by simp), if_neg (by simp)]
        rw [joinSep_cons ", " x (y :: ys) (by simp)]
        simp [strApp_assoc]

theorem allowedStar_fold (l : List (String × TrieNode)) (acc : String) :
    l.foldl
      (fun allowed mt =>
        if mt.1 = "OPTIONS" then allowed else suffixCommaValue allowed mt.1) acc =
    ((l.map Prod.fst).filter (fun m => m ≠ "OPTIONS")).foldl suffixCommaValue acc := by
  induction l generalizing acc with
  | nil => rfl
  | cons mt rest ih =>
    obtain ⟨m, t⟩ := mt
    by_cases h : m = "OPTIONS"
    · simp [h, ih]
    · simp [h, ih]

theorem allowedPath_fold (l : List (String × TrieNode)) (rm p acc : String) :
    l.foldl
      (fun allowed mt =>
        if mt.1 = rm ∨ mt.1 = "OPTIONS" then allowed
        else
          match (treeFind mt.2 p).1 with
          | some _ => suffixCommaValue allowed mt.1
          | none => allowed) acc =
    ((l.filter (fun mt => mt.1 ≠ rm ∧ mt.1 ≠ "OPTIONS" ∧
        (treeFind mt.2 p).1.isSome)).map Prod.fst).foldl suffixCommaValue acc := by
  induction l generalizing acc with
  | nil => rfl
  | cons mt rest ih =>
    obtain ⟨m, t⟩ := mt
    by_cases h1 : m = rm
    · simp only [List.foldl_cons, List.filter_cons, h1]
      rw [if_pos (by simp), if_neg (by simp)]
      exact ih acc
    · by_cases h2 : m = "OPTIONS"
      · simp only [List.foldl_cons, List.filter_cons, h2]
        rw [if_pos (by simp), if_neg (by simp)]
        exact ih acc
      · cases hf : (treeFind t p).1 with
        | some v =>
          simp only [List.foldl_cons, List.filter_cons, hf]
          rw [if_neg (by tauto), if_pos (by simp [h1, h2, hf])]
          rw [List.map_cons, List.foldl_cons]
          exact ih _
        | none =>
          simp only [List.foldl_cons, List.filter_cons, hf]
          rw [if_neg (by tauto), if_neg (by simp [h1, h2, hf])]
          exact ih acc

/-- Claim C9: `Allowed` with path `*` comma-joins every method that has a
registered tree except `OPTIONS` (including the requesting method); for any
other path it comma-joins exactly the methods that differ from the request
method, are not `OPTIONS`, and whose tree finds a terminal for the path. -/
theorem claim_C9 (d : Domain) (rm p : String)
    (hm : ∀ m ∈ keysOf d.trees, m ≠ "") :
    (p = "*" →
      d.Allowed rm p =
        joinSep ", " ((keysOf d.trees).filter (fun m => m ≠ "OPTIONS"))) ∧
    (p ≠ "*" →
      d.Allowed rm p =
        joinSep ", " ((d.trees.filter (fun mt => mt.1 ≠ rm ∧ mt.1 ≠ "OPTIONS" ∧
          (treeFind mt.2 p).1.isSome)).map Prod.fst)) := by
  constructor
  · intro hp
    rw [Domain.Allowed, if_pos hp, allowedStar_fold]
    rw [foldl_suffixCommaValue_join]
    · rw [if_pos rfl]
      rfl
    · intro x hx
      exact hm x (List.mem_of_mem_filter hx)
  · intro hp
    rw [Domain.Allowed, if_neg hp, allowedPath_fold]
    rw [foldl_suffixCommaValue_join]
    · rw [if_pos rfl]
    · intro x hx
      obtain ⟨mt, hmt, hx2⟩ := List.mem_map.mp hx
      subst hx2
      exact hm mt.1 (List.mem_map_of_mem Prod.fst (List.mem_of_mem_filter hmt))

/-- A small two-route domain for the C9 witness: GET and OPTIONS trees hold
`/login`, POST holds `/`. -/
def egDomainC9 : Domain :=
  { trees :=
      [("GET", ⟨none, [("login", ⟨some "login", [], none, none⟩)], none, none⟩),
       ("POST", ⟨some "index", [], none, none⟩),
       ("OPTIONS", ⟨none, [("login", ⟨some "login", [], none, none⟩)], none, none⟩)] }

/-- Witness for C9: server-wide allowance lists GET and POST (not OPTIONS);
for `/login` with request method POST only GET remains. -/
theorem witness_C9 :
    egDomainC9.Allowed "POST" "*" = "GET, POST" ∧
      egDomainC9.Allowed "POST" "/login" = "GET" := by
  constructor
  · exact ((claim_C9 egDomainC9 "POST" "*" (by decide)).1 rfl).trans (by decide)
  · exact ((claim_C9 egDomainC9 "POST" "/login" (by decide)).2 (by decide)).trans (by decide)

/-! ### Claim C6: static routes, `dir` and `file` -/

/-- A static entry declaring `file` together with `base_dir`, as the test
configurations of the repository do. -/
def egStaticCfgC6 : Config :=
  [("favicon", .sec
    [("path", .str "/favicon.ico"),
     ("file", .str "img/favicon.png"),
     ("base_dir", .str "assets")])]

/-- Counterexample to C6 as stated: the parsed `favicon` route has BOTH
`Dir` (the resolved base directory) and `File` non-empty, so "exactly one
of the fields `Dir` and `File` is non-empty" fails on the code. -/
theorem counterexample_C6 :
    ((parseStaticSection egStaticCfgC6).toOption.getD []).map Route.Dir = ["assets"] ∧
    ((parseStaticSection egStaticCfgC6).toOption.getD []).map Route.File =
      ["img/favicon.png"] ∧
    ("assets" : String) ≠ "" ∧ ("img/favicon.png" : String) ≠ "" := by
  refine ⟨rfl, rfl, by decide, by decide⟩

/-- Claim C6, amended: exactly one of the config KEYS `dir`/`file` may be
declared — both-present and neither-present entries are rejected with an
error — and a produced route carries the declared `dir` with an empty
`File`, or the declared `file` (with `Dir` holding the resolved base
directory, possibly non-empty). -/
theorem claim_C6 (cfg : Config) (name : String) :
    ((cfgString cfg (name ++ ".dir")).isSome = true →
      (cfgString cfg (name ++ ".file")).isSome = true →
      ∀ r, parseStaticEntry cfg name ≠ .ok r) ∧
    (cfgString cfg (name ++ ".dir") = none →
      cfgString cfg (name ++ ".file") = none →
      ∀ r, parseStaticEntry cfg name ≠ .ok r) ∧
    (∀ r, parseStaticEntry cfg name = .ok r →
      ((cfgString cfg (name ++ ".dir")).isSome = true ∧
          cfgString cfg (name ++ ".file") = none ∧
          r.Dir = (cfgString cfg (name ++ ".dir")).getD "" ∧ r.File = "") ∨
        ((cfgString cfg (name ++ ".file")).isSome = true ∧
          cfgString cfg (name ++ ".dir") = none ∧
          r.File = (cfgString cfg (name ++ ".file")).getD "")) := by
  refine ⟨?_, ?_, ?_⟩
  · intro hd hf r
    rw [parseStaticEntry]
    cases hp : cfgString cfg (name ++ ".path") with
    | none => simp
    | some routePath =>
      simp only []
      by_cases h1 : ¬(headChar routePath = some '/')
      · rw [if_pos h1]
        simp
      · rw [if_neg h1]
        by_cases h2 : containsChar routePath ':' = true ∨ containsChar routePath '*' = true
        · rw [if_pos h2]
          simp
        · rw [if_neg h2, if_pos ⟨hd, hf⟩]
          simp
  · intro hd hf r
    rw [parseStaticEntry]
    cases hp : cfgString cfg (name ++ ".path") with
    | none => simp
    | some routePath =>
      simp only []
      by_cases h1 : ¬(headChar routePath = some '/')
      · rw [if_pos h1]
        simp
      · rw [if_neg h1]
        by_cases h2 : containsChar routePath ':' = true ∨ containsChar routePath '*' = true
        · rw [if_pos h2]
          simp
        · rw [if_neg h2, if_neg (by simp [hd, hf]), if_pos (by simp [hd, hf])]
          simp
  · intro r hr
    cases hp : cfgString cfg (name ++ ".path") with
    | none => simp [parseStaticEntry, hp] at hr
    | some routePath =>
      by_cases h1 : headChar routePath = some '/'
      case neg => simp [parseStaticEntry, hp, h1] at hr
      case pos =>
      by_cases hc1 : containsChar routePath ':' = true
      case pos => simp [parseStaticEntry, hp, h1, hc1] at hr
      case neg =>
      by_cases hc2 : containsChar routePath '*' = true
      case pos => simp [parseStaticEntry, hp, h1, hc1, hc2] at hr
      case neg =>
      cases hd : cfgString cfg (name ++ ".dir") with
      | some dv =>
        cases hf : cfgString cfg (name ++ ".file") with
        | some fv => simp [parseStaticEntry, hp, h1, hc1, hc2, hd, hf] at hr
        | none =>
          simp [parseStaticEntry, hp, h1, hc1, hc2, hd, hf] at hr
          subst hr
          left
          exact ⟨rfl, rfl, rfl, rfl⟩
      | none =>
        cases hf : cfgString cfg (name ++ ".file") with
        | some fv =>
          cases hbd : cfgString cfg (name ++ ".base_dir") with
          | some bd =>
            simp [parseStaticEntry, hp, h1, hc1, hc2, hd, hf, hbd] at hr
            subst hr
            right
            exact ⟨rfl, rfl, rfl⟩
          | none =>
            by_cases hsl : headChar fv = some '/'
            case pos =>
              simp [parseStaticEntry, hp, h1, hc1, hc2, hd, hf, hbd, hsl] at hr
              subst hr
              right
              exact ⟨rfl, rfl, rfl⟩
            case neg =>
              cases hpa : cfgString cfg "public_assets.dir" with
              | some pad =>
                simp [parseStaticEntry, hp, h1, hc1, hc2, hd, hf, hbd, hsl, hpa] at hr
                subst hr
                right
                exact ⟨rfl, rfl, rfl⟩
              | none =>
                simp [parseStaticEntry, hp, h1, hc1, hc2, hd, hf, hbd, hsl, hpa] at hr
        | none => simp [parseStaticEntry, hp, h1, hc1, hc2, hd, hf] at hr

/-- Static entries for the C6 witness: both keys, neither key, and a
file-with-base_dir entry. -/
def egStaticBoth : Config :=
  [("pub", .sec [("path", .str "/static"), ("dir", .str "/public"),
                 ("file", .str "a.png")])]

/-- Static entry with neither `dir` nor `file`. -/
def egStaticNeither : Config :=
  [("pub", .sec [("path", .str "/static")])]

/-- Witness for C6 on the three concrete configurations. -/
theorem witness_C6 :
    parseStaticEntry egStaticBoth "pub" ≠ .ok { Name := "pub" } ∧
    parseStaticEntry egStaticNeither "pub" ≠ .ok { Name := "pub" } ∧
    (((cfgString egStaticCfgC6 "favicon.dir").isSome = true ∧
        cfgString egStaticCfgC6 "favicon.file" = none ∧
        ("assets" : String) = (cfgString egStaticCfgC6 "favicon.dir").getD "" ∧
        ("img/favicon.png" : String) = "") ∨
      ((cfgString egStaticCfgC6 "favicon.file").isSome = true ∧
        cfgString egStaticCfgC6 "favicon.dir" = none ∧
        ("img/favicon.png" : String) = (cfgString egStaticCfgC6 "favicon.file").getD "")) := by
  refine ⟨?_, ?_, ?_⟩
  · exact (claim_C6 egStaticBoth "pub").1 (by decide) (by decide) _
  · exact (claim_C6 egStaticNeither "pub").2.1 (by decide) (by decide) _
  · have h := (claim_C6 egStaticCfgC6 "favicon").2.2
      { Name := "favicon", Method := "GET", IsStatic := true,
        Path := "/favicon.ico", Dir := "assets", File := "img/favicon.png" } (by rfl)
    exact h

/-! ### Claim C5: what AddRoute rejects -/

/-- Inserting the same pattern twice into the trie fails: the terminal
created by the first insertion is found again by the second. -/
theorem nodeAdd_dup (segs : List String) :
    ∀ (n n2 : TrieNode) (v : String), nodeAdd n segs v = .ok n2 →
      ∀ (v2 : String) (r : TrieNode), nodeAdd n2 segs v2 ≠ .ok r := by
  induction segs with
  | nil =>
    intro n n2 v h v2 r hr
    cases hv : n.value with
    | some w => simp [nodeAdd, hv] at h
    | none =>
      simp [nodeAdd, hv] at h
      subst h
      simp [nodeAdd] at hr
  | cons seg rest ih =>
    intro n n2 v h v2 r hr
    by_cases hparam : headChar seg = some ':'
    · by_cases hcw : (!n.children.isEmpty || n.wild.isSome) = true
      · simp only [nodeAdd, if_pos hparam, if_pos hcw] at h
        cases h
      · cases hp : n.param with
        | some pc =>
          obtain ⟨pname, child⟩ := pc
          by_cases hpn : pname = strTail seg
          · cases hrec : nodeAdd child rest v with
            | error e => simp [nodeAdd, hparam, hcw, hp, hpn, hrec] at h
            | ok child2 =>
              simp only [nodeAdd, if_pos hparam, if_neg hcw, hp, if_pos hpn, hrec,
                exceptBind_ok, Except.ok.injEq] at h
              subst h
              cases hrec2 : nodeAdd child2 rest v2 with
              | error e => simp [nodeAdd, hparam, hcw, hp, hpn, hrec2] at hr
              | ok c3 => exact ih child child2 v hrec v2 c3 hrec2
          · simp only [nodeAdd, if_pos hparam, if_neg hcw, hp, if_neg hpn] at h
            cases h
        | none =>
          cases hrec : nodeAdd TrieNode.empty rest v with
          | error e => simp [nodeAdd, hparam, hcw, hp, hrec] at h
          | ok child2 =>
            simp only [nodeAdd, if_pos hparam, if_neg hcw, hp, hrec,
              exceptBind_ok, Except.ok.injEq] at h
            subst h
            cases hrec2 : nodeAdd child2 rest v2 with
            | error e => simp [nodeAdd, hparam, hcw, hrec2] at hr
            | ok c3 => exact ih TrieNode.empty child2 v hrec v2 c3 hrec2
    · by_cases hwild : headChar seg = some '*'
      · by_cases hrest : (!rest.isEmpty) = true
        · simp only [nodeAdd, if_neg hparam, if_pos hwild, if_pos hrest] at h
          cases h
        · by_cases hcpw : (!n.children.isEmpty || n.param.isSome || n.wild.isSome) = true
          · simp only [nodeAdd, if_neg hparam, if_pos hwild, if_neg hrest, if_pos hcpw] at h
            cases h
          · simp only [nodeAdd, if_neg hparam, if_pos hwild, if_neg hrest, if_neg hcpw,
              Except.ok.injEq] at h
            subst h
            simp [nodeAdd, hparam, hwild, hrest] at hr
      · by_cases hpw : (n.param.isSome || n.wild.isSome) = true
        · simp only [nodeAdd, if_neg hparam, if_neg hwild, if_pos hpw] at h
          cases h
        · cases hc : lookupKey seg n.children with
          | some child =>
            cases hrec : nodeAdd child rest v with
            | error e => simp [nodeAdd, hparam, hwild, hpw, hc, hrec] at h
            | ok child2 =>
              simp only [nodeAdd, if_neg hparam, if_neg hwild, if_neg hpw, hc, hrec,
                exceptBind_ok, Except.ok.injEq] at h
              subst h
              cases hrec2 : nodeAdd child2 rest v2 with
              | error e =>
                simp [nodeAdd, hparam, hwild, hpw, lookupKey_insertKey_self, hrec2] at hr
              | ok c3 => exact ih child child2 v hrec v2 c3 hrec2
          | none =>
            cases hrec : nodeAdd TrieNode.empty rest v with
            | error e => simp [nodeAdd, hparam, hwild, hpw, hc, hrec] at h
            | ok child2 =>
              simp only [nodeAdd, if_neg hparam, if_neg hwild, if_neg hpw, hc, hrec,
                exceptBind_ok, Except.ok.injEq] at h
              subst h
              cases hrec2 : nodeAdd child2 rest v2 with
              | error e =>
                simp [nodeAdd, hparam, hwild, hpw, lookupKey_insertKey_self, hrec2] at hr
              | ok c3 => exact ih TrieNode.empty child2 v hrec v2 c3 hrec2

/-- Counterexample to C5 as stated: with route `r` (GET /a) registered,
adding another route also named `r` but with path `/b` returns NO error and
CHANGES the domain — the by-name index now maps `r` to the new route. -/
theorem counterexample_C5 :
    ((Domain.AddRoute { } { Name := "r", Path := "/a", Method := "GET" }).1 = none) ∧
    (((Domain.AddRoute { } { Name := "r", Path := "/a", Method := "GET" }).2.AddRoute
        { Name := "r", Path := "/b", Method := "GET" }).1 = none) ∧
    ((lookupKey "r" ((Domain.AddRoute { } { Name := "r", Path := "/a", Method := "GET" }).2).routes).map
        Route.Path = some "/a") ∧
    ((lookupKey "r" (((Domain.AddRoute { } { Name := "r", Path := "/a", Method := "GET" }).2.AddRoute
        { Name := "r", Path := "/b", Method := "GET" }).2).routes).map
        Route.Path = some "/b") := by
  exact ⟨rfl, rfl, rfl, rfl⟩

/-- Claim C5, amended: the registration conflict `AddRoute` rejects is a
duplicate PATH within a method's tree, not a duplicate name: after a
successful `AddRoute` of a route, adding any route with the same method and
the same path returns a non-nil error and leaves the domain unchanged
(duplicate names with a fresh path instead succeed and overwrite the
by-name index, as the counterexample shows). -/
theorem claim_C5 (d d1 : Domain) (r1 r2 : Route)
    (hm2 : isStrEmpty r2.Method = false)
    (hmeq : r2.Method = r1.Method) (hpeq : r2.Path = r1.Path)
    (hadd : d.AddRoute r1 = (none, d1)) :
    (d1.AddRoute r2).1.isSome = true ∧ (d1.AddRoute r2).2 = d1 := by
  by_cases hm1 : isStrEmpty r1.Method = true
  · rw [Domain.AddRoute, if_pos hm1] at hadd
    cases hadd
  · simp only [Domain.AddRoute, if_neg hm1] at hadd
    cases hex : lookupKey r1.Method d.trees with
    | some t0 =>
      simp only [hex, Option.getD_some] at hadd
      cases hta : treeAdd t0 r1.Path r1.Name with
      | error e =>
        simp only [hta] at hadd
        cases hadd
      | ok t2 =>
        simp only [hta, Prod.mk.injEq] at hadd
        have hd1 : d1.trees = insertKey r1.Method t2 d.trees := by
          rw [← hadd.2]
        have htrees : lookupKey r2.Method d1.trees = some t2 := by
          rw [hmeq, hd1]
          exact lookupKey_insertKey_self _ _ _
        rw [Domain.AddRoute, if_neg (show ¬isStrEmpty r2.Method = true by simp [hm2])]
        simp only [htrees, Option.getD_some]
        cases hta2 : treeAdd t2 r2.Path r2.Name with
        | error e => simp only [hta2]; exact ⟨rfl, trivial⟩
        | ok t3 =>
          exfalso
          rw [treeAdd] at hta hta2
          rw [hpeq] at hta2
          exact nodeAdd_dup (patternSegs r1.Path) t0 t2 r1.Name hta r2.Name t3 hta2
    | none =>
      simp only [hex, Option.getD_none] at hadd
      cases hta : treeAdd TrieNode.empty r1.Path r1.Name with
      | error e =>
        simp only [hta] at hadd
        cases hadd
      | ok t2 =>
        simp only [hta, Prod.mk.injEq] at hadd
        have hd1 : d1.trees = insertKey r1.Method t2 (insertKey r1.Method TrieNode.empty d.trees) := by
          rw [← hadd.2]
        have htrees : lookupKey r2.Method d1.trees = some t2 := by
          rw [hmeq, hd1]
          exact lookupKey_insertKey_self _ _ _
        rw [Domain.AddRoute, if_neg (show ¬isStrEmpty r2.Method = true by simp [hm2])]
        simp only [htrees, Option.getD_some]
        cases hta2 : treeAdd t2 r2.Path r2.Name with
        | error e => simp only [hta2]; exact ⟨rfl, trivial⟩
        | ok t3 =>
          exfalso
          rw [treeAdd] at hta hta2
          rw [hpeq] at hta2
          exact nodeAdd_dup (patternSegs r1.Path) TrieNode.empty t2 r1.Name hta r2.Name t3 hta2

/-- Witness for C5: `/a` registered under GET, a second route with the same
method and path (different name) is rejected and the domain is unchanged. -/
theorem witness_C5 :
    ((Domain.AddRoute { } { Name := "r", Path := "/a", Method := "GET" }).2.AddRoute
        { Name := "rr", Path := "/a", Method := "GET" }).1.isSome = true ∧
    ((Domain.AddRoute { } { Name := "r", Path := "/a", Method := "GET" }).2.AddRoute
        { Name := "rr", Path := "/a", Method := "GET" }).2 =
      (Domain.AddRoute { } { Name := "r", Path := "/a", Method := "GET" }).2 := by
  exact claim_C5 { } _ { Name := "r", Path := "/a", Method := "GET" }
    { Name := "rr", Path := "/a", Method := "GET" } (by decide) rfl rfl rfl

/-! ### Claim C4: is loading atomic? -/

/-- Two domains; the first is well-formed, the second lacks `host`. -/
def egCfgC4 : Config :=
  [("domains", .sec
    [("d1", .sec [("host", .str "localhost")]),
     ("d2", .sec [])])]

/-- Counterexample to C4 as stated: `processRoutesConfig` fails on the
second domain yet the `Domains` map already holds the first domain — the
error does not leave the router nil or empty. -/
theorem counterexample_C4 :
    (processRoutesConfig egCfgC4 []).1 = some "'d2.host' key is missing" ∧
    ((processRoutesConfig egCfgC4 []).2.getD []).length = 1 ∧
    ((processRoutesConfig egCfgC4 []).2.getD []).map Prod.fst = ["localhost:8080"] := by
  exact ⟨rfl, rfl, rfl⟩

/-- The successful step of the domain loop: install the parsed domain under
its key (no-op on a failed key; the loop stops there anyway). -/
def stepDomain (dc app : Config) (acc : List (String × Domain)) (k : String) :
    List (String × Domain) :=
  match processDomain dc app k with
  | .ok d => insertKey d.key d acc
  | .error _ => acc

theorem processDomainsLoop_error (dc app : Config) :
    ∀ (keys : List String) (acc : List (String × Domain)) (e : String)
      (m : List (String × Domain)),
      processDomainsLoop dc app keys acc = (some e, m) →
      ∃ pre key post, keys = pre ++ key :: post ∧
        (∀ k ∈ pre, ∃ dk, processDomain dc app k = .ok dk) ∧
        processDomain dc app key = .error e ∧
        m = pre.foldl (stepDomain dc app) acc := by
  intro keys
  induction keys with
  | nil =>
    intro acc e m h
    rw [processDomainsLoop] at h
    cases h
  | cons key rest ih =>
    intro acc e m h
    rw [processDomainsLoop] at h
    cases hpd : processDomain dc app key with
    | error e2 =>
      rw [hpd] at h
      cases h
      exact ⟨[], key, rest, rfl, by simp, hpd, rfl⟩
    | ok dk =>
      rw [hpd] at h
      obtain ⟨pre, key2, post, hsplit, hok, herr, hm⟩ := ih _ _ _ h
      refine ⟨key :: pre, key2, post, by rw [hsplit]; simp, ?_, herr, ?_⟩
      · intro k hk
        rcases List.mem_cons.mp hk with hk | hk
        · exact ⟨dk, by rw [hk]; exact hpd⟩
        · exact hok k hk
      · rw [hm, List.foldl_cons]
        have : stepDomain dc app acc key = insertKey dk.key dk acc := by
          rw [stepDomain, hpd]
        rw [this]

/-- Claim C4, amended: loading is NOT all-or-nothing inside the router.
`processRoutesConfig` leaves `Domains` nil exactly when the `domains`
section is missing or empty (the sentinel error); on any later error the
map holds exactly the domains successfully processed before the failing
one, so a partially populated map is exposed and the caller must discard
the Router on error. -/
theorem claim_C4 (cfg appCfg : Config) :
    ((processRoutesConfig cfg appCfg).2 = none ↔
      cfgKeysByPath cfg "domains" = [] ∧
        (processRoutesConfig cfg appCfg).1 =
          some "router: no domain routes config found") ∧
    (∀ e m, processRoutesConfig cfg appCfg = (some e, some m) →
      ∃ pre key post,
        cfgKeysByPath cfg "domains" = pre ++ key :: post ∧
        (∀ k ∈ pre, ∃ dk,
          processDomain ((cfgGetSubConfig cfg "domains").getD []) appCfg k = .ok dk) ∧
        processDomain ((cfgGetSubConfig cfg "domains").getD []) appCfg key = .error e ∧
        m = pre.foldl (stepDomain ((cfgGetSubConfig cfg "domains").getD []) appCfg) []) := by
  constructor
  · rw [processRoutesConfig]
    by_cases hl : (cfgKeysByPath cfg "domains").length = 0
    · rw [if_pos hl]
      constructor
      · intro _
        exact ⟨List.length_eq_zero.mp hl, rfl⟩
      · intro _
        rfl
    · rw [if_neg hl]
      constructor
      · intro hc
        simp at hc
      · intro hc
        exact absurd (show (cfgKeysByPath cfg "domains").length = 0 by rw [hc.1]; rfl) hl
  · intro e m h
    rw [processRoutesConfig] at h
    by_cases hl : (cfgKeysByPath cfg "domains").length = 0
    · rw [if_pos hl] at h
      cases h
    · rw [if_neg hl] at h
      have hfst : (processDomainsLoop ((cfgGetSubConfig cfg "domains").getD []) appCfg
          (cfgKeysByPath cfg "domains") []).1 = some e := congrArg Prod.fst h
      have hsnd : some (processDomainsLoop ((cfgGetSubConfig cfg "domains").getD []) appCfg
          (cfgKeysByPath cfg "domains") []).2 = some m := congrArg Prod.snd h
      have hsnd2 := Option.some.injEq _ _ ▸ hsnd
      have h2 : processDomainsLoop ((cfgGetSubConfig cfg "domains").getD []) appCfg
          (cfgKeysByPath cfg "domains") [] = (some e, m) := by
        rw [Prod.ext_iff]
        exact ⟨hfst, by simpa using hsnd⟩
      exact processDomainsLoop_error _ _ _ _ _ _ h2

/-- Witness for C4 on the two-domain configuration: the loop fails at `d2`
with `d1` already installed. -/
theorem witness_C4 :
    ∃ pre key post,
      cfgKeysByPath egCfgC4 "domains" = pre ++ key :: post ∧
      (∀ k ∈ pre, ∃ dk,
        processDomain ((cfgGetSubConfig egCfgC4 "domains").getD []) [] k = .ok dk) ∧
      processDomain ((cfgGetSubConfig egCfgC4 "domains").getD []) [] key =
        .error "'d2.host' key is missing" ∧
      ((processRoutesConfig egCfgC4 []).2.getD []) =
        pre.foldl (stepDomain ((cfgGetSubConfig egCfgC4 "domains").getD []) []) [] := by
  obtain ⟨pre, key, post, h1, h2, h3, h4⟩ :=
    (claim_C4 egCfgC4 []).2 "'d2.host' key is missing"
      ((processRoutesConfig egCfgC4 []).2.getD []) rfl
  exact ⟨pre, key, post, h1, h2, h3, h4⟩

/-! ### Claims C7/C8/C10: the reverse-URL family -/

/-- The `:param`/`*wild` names of a pattern's segments, in pattern order. -/
def paramNamesOf (segs : List String) : List String :=
  (segs.filter (fun s => headChar s = some ':' ∨ headChar s = some '*')).map strTail

/-- A parameter-headed segment is not whitespace-empty. -/
theorem isStrEmpty_param_false {seg : String}
    (h : headChar seg = some ':' ∨ headChar seg = some '*') :
    isStrEmpty seg = false := by
  cases hd : seg.data with
  | nil =>
    rw [headChar, hd] at h
    simp at h
  | cons c t =>
    rw [headChar, hd] at h
    simp only [List.head?_cons, Option.some.injEq] at h
    rw [isStrEmpty, hd, List.all_cons]
    rcases h with h | h <;> subst h <;> simp

theorem paramNamesOf_cons (seg : String) (rest : List String) :
    paramNamesOf (seg :: rest) =
      if headChar seg = some ':' ∨ headChar seg = some '*' then
        strTail seg :: paramNamesOf rest
      else paramNamesOf rest := by
  by_cases h : headChar seg = some ':' ∨ headChar seg = some '*' <;>
    simp [paramNamesOf, List.filter_cons, h]

/-- When a parameter name of the pattern is missing from the argument map,
the named segment walk fails. -/
theorem reverseComposeGo_missing :
    ∀ (segs : List String) (acc : String) (args : List (String × String)) (p : String),
      p ∈ paramNamesOf segs → lookupKey p args = none →
      (reverseComposeGo segs acc args).1 = none := by
  intro segs
  induction segs with
  | nil =>
    intro acc args p hp hnone
    simp [paramNamesOf] at hp
  | cons seg rest ih =>
    intro acc args p hp hnone
    rw [paramNamesOf_cons] at hp
    rw [reverseComposeGo]
    by_cases hse : isStrEmpty seg = true
    · have hnp : ¬(headChar seg = some ':' ∨ headChar seg = some '*') := by
        intro hc
        rw [isStrEmpty_param_false hc] at hse
        cases hse
      rw [if_pos hse]
      rw [if_neg hnp] at hp
      exact ih acc args p hp hnone
    · rw [if_neg hse]
      by_cases hpar : headChar seg = some ':' ∨ headChar seg = some '*'
      · rw [if_pos hpar] at hp ⊢
        show (match lookupKey (strTail seg) args with
          | some v => reverseComposeGo rest (pathJoin acc v) (eraseKey (strTail seg) args)
          | none => ((none : Option String), args)).1 = none
        cases hl : lookupKey (strTail seg) args with
        | none => rfl
        | some v =>
          simp only []
          rcases List.mem_cons.mp hp with hp2 | hp2
          · subst hp2
            rw [hl] at hnone
            cases hnone
          · have hne : p ≠ strTail seg := by
              intro he
              rw [he, hl] at hnone
              cases hnone
            exact ih _ _ p hp2 (by rw [lookupKey_eraseKey_ne _ _ _ hne]; exact hnone)
      · rw [if_neg hpar] at hp ⊢
        exact ih _ args p hp hnone

/-- A pattern with a parameter has a positive `countParams`. -/
theorem countParams_pos_of_param {path : String} {p : String}
    (hp : p ∈ paramNamesOf ((goSplitSlash path).drop 1)) :
    0 < countParams path := by
  rw [paramNamesOf] at hp
  obtain ⟨s, hs, _⟩ := List.mem_map.mp hp
  have hs2 := List.mem_of_mem_filter hs
  have hcond := List.of_mem_filter hs
  have hmem : s ∈ goSplitSlash path := List.mem_of_mem_drop hs2
  rw [countParams]
  have : s ∈ (goSplitSlash path).filter
      (fun s => headChar s = some ':' ∨ headChar s = some '*') :=
    List.mem_filter.mpr ⟨hmem, hcond⟩
  exact List.length_pos.mpr (List.ne_nil_of_mem this)

/-- Claim C7: the reverse-URL constructors never surface an error — on an
unknown route name, a positional-argument count different from the
pattern's parameter count, a named-argument map with fewer entries than
the parameter count, or a parameter name missing from the map, they return
the empty string. -/
theorem claim_C7 :
    (∀ (d : Domain) (name : String) (args : List (String × String)) (vals : List String),
      lookupKey name d.routes = none →
      (d.ReverseURLm name args).1 = "" ∧ d.ReverseURL name vals = "") ∧
    (∀ (d : Domain) (name : String) (route : Route) (vals : List String),
      lookupKey name d.routes = some route →
      vals.length ≠ countParams route.Path →
      d.ReverseURL name vals = "") ∧
    (∀ (d : Domain) (name : String) (route : Route) (args : List (String × String)),
      lookupKey name d.routes = some route →
      args.length < countParams route.Path →
      (d.ReverseURLm name args).1 = "") ∧
    (∀ (d : Domain) (name : String) (route : Route) (args : List (String × String))
        (p : String),
      lookupKey name d.routes = some route →
      p ∈ paramNamesOf ((goSplitSlash route.Path).drop 1) →
      lookupKey p args = none →
      (d.ReverseURLm name args).1 = "") := by
  refine ⟨?_, ?_, ?_, ?_⟩
  · intro d name args vals h
    constructor
    · rw [Domain.ReverseURLm, h]
    · rw [Domain.ReverseURL, h]
  · intro d name route vals h hne
    rw [Domain.ReverseURL, h]
    simp only []
    rw [if_neg (by intro hc; exact hne (by omega))]
    by_cases hgt : vals.length > countParams route.Path
    · rw [if_pos hgt]
    · rw [if_neg hgt, if_pos (by omega)]
  · intro d name route args h hlt
    rw [Domain.ReverseURLm, h]
    simp only []
    rw [if_neg (by intro hc; omega), if_pos hlt]
  · intro d name route args p h hp hnone
    rw [Domain.ReverseURLm, h]
    simp only []
    have hcnt := countParams_pos_of_param hp
    rw [if_neg (by intro hc; omega)]
    by_cases hlt : args.length < countParams route.Path
    · rw [if_pos hlt]
    · rw [if_neg hlt]
      have hw := reverseComposeGo_missing ((goSplitSlash route.Path).drop 1) "/" args p hp hnone
      cases hwc : reverseComposeGo ((goSplitSlash route.Path).drop 1) "/" args with
      | mk first second =>
        rw [hwc] at hw
        simp only [] at hw
        subst hw
        simp [hwc]

/-- A one-route domain used by the reverse-URL witnesses. -/
def egDomainC7 : Domain :=
  { routes := [("book", { Name := "book", Path := "/hotels/:id/booking", Method := "GET" })] }

/-- Witness for C7: each failure mode on concrete inputs. -/
theorem witness_C7 :
    ((egDomainC7.ReverseURLm "missing" []).1 = "" ∧ egDomainC7.ReverseURL "missing" [] = "") ∧
    egDomainC7.ReverseURL "book" [] = "" ∧
    (egDomainC7.ReverseURLm "book" []).1 = "" ∧
    (egDomainC7.ReverseURLm "book" [("idvalue", "12345678")]).1 = "" := by
  refine ⟨?_, ?_, ?_, ?_⟩
  · exact claim_C7.1 egDomainC7 "missing" [] [] rfl
  · exact claim_C7.2.1 egDomainC7 "book" _ [] rfl (by decide)
  · exact claim_C7.2.2.1 egDomainC7 "book" _ [] rfl (by decide)
  · exact claim_C7.2.2.2 egDomainC7 "book" _ [("idvalue", "12345678")] "id" rfl
      (by decide) rfl

/-- Byte-order comparison is total. -/
theorem charListLe_total : ∀ (a b : List Char),
    charListLe a b = true ∨ charListLe b a = true := by
  intro a
  induction a with
  | nil => intro b; exact Or.inl rfl
  | cons c1 r1 ih =>
    intro b
    cases b with
    | nil => exact Or.inr rfl
    | cons c2 r2 =>
      by_cases hc : c1 = c2
      · subst hc
        rw [charListLe, charListLe, if_pos rfl, if_pos rfl]
        exact ih r2
      · rw [charListLe, charListLe, if_neg hc, if_neg (fun he => hc he.symm)]
        rcases Nat.le_total c1.toNat c2.toNat with h | h
        · exact Or.inl (by simpa using h)
        · exact Or.inr (by simpa using h)

/-- Inserting into a key-sorted list keeps it sorted (adjacent order). -/
theorem chain_insertSortedPair (kv : String × String) :
    ∀ (l : List (String × String)),
      List.Chain' (fun a b => charListLe a.1.data b.1.data = true) l →
      List.Chain' (fun a b => charListLe a.1.data b.1.data = true) (insertSortedPair kv l) := by
  intro l
  induction l with
  | nil => intro _; simp [insertSortedPair]
  | cons hd tl ih =>
    intro h
    rw [insertSortedPair]
    by_cases hle : charListLe kv.1.data hd.1.data = true
    · rw [if_pos hle]
      exact List.Chain'.cons hle h
    · rw [if_neg hle]
      have hge : charListLe hd.1.data kv.1.data = true := by
        rcases charListLe_total kv.1.data hd.1.data with hc | hc
        · exact absurd hc hle
        · exact hc
      have htl : List.Chain' (fun a b => charListLe a.1.data b.1.data = true) tl :=
        List.Chain'.tail h
      have hins := ih htl
      rw [List.chain'_cons']
      refine ⟨?_, hins⟩
      intro x hx
      cases tl with
      | nil =>
        simp [insertSortedPair] at hx
        subst hx
        exact hge
      | cons t0 t1 =>
        rw [insertSortedPair] at hx
        by_cases hle2 : charListLe kv.1.data t0.1.data = true
        · rw [if_pos hle2] at hx
          simp at hx
          subst hx
          exact hge
        · rw [if_neg hle2] at hx
          simp at hx
          subst hx
          exact (List.chain'_cons.mp h).1

/-- The sorted pair list is sorted in byte (alphabetical) key order. -/
theorem sortPairs_chain (pairs : List (String × String)) :
    List.Chain' (fun a b => charListLe a.1.data b.1.data = true) (sortPairs pairs) := by
  induction pairs with
  | nil => simp [sortPairs]
  | cons kv rest ih => exact chain_insertSortedPair kv _ ih

/-- Claim C8: a zero-parameter route with an empty argument map reverses to
its stored path verbatim; surplus map entries are appended as query
parameters with the keys in alphabetical (byte) order — concretely,
`/hotels/:id/booking` with `{id: 42, q: x}` yields
`/hotels/42/booking?q=x`. -/
theorem claim_C8 :
    (∀ (d : Domain) (name : String) (route : Route),
      lookupKey name d.routes = some route →
      countParams route.Path = 0 →
      (d.ReverseURLm name []).1 = route.Path) ∧
    (egDomainC7.ReverseURLm "book" [("id", "42"), ("q", "x")]).1 =
      "/hotels/42/booking?q=x" ∧
    (∀ pairs : List (String × String),
      List.Chain' (fun a b => charListLe a.1.data b.1.data = true) (sortPairs pairs) ∧
      valuesEncode pairs = joinSep "&"
        ((sortPairs pairs).map (fun kv => queryEscape kv.1 ++ "=" ++ queryEscape kv.2))) ∧
    (∀ (d : Domain) (name : String) (route : Route) (args : List (String × String))
        (url : String) (args2 : List (String × String)) (u : String),
      lookupKey name d.routes = some route →
      ¬(countParams route.Path = 0 ∧ args.length = 0) →
      ¬(args.length < countParams route.Path) →
      reverseComposeGo ((goSplitSlash route.Path).drop 1) "/" args = (some url, args2) →
      args2 ≠ [] →
      goURLReString (url ++ "?" ++ valuesEncode args2) = some u →
      (d.ReverseURLm name args).1 = u) := by
  refine ⟨?_, ?_, ?_, ?_⟩
  · intro d name route h hcnt
    rw [Domain.ReverseURLm, h]
    simp only []
    rw [if_pos ⟨hcnt, rfl⟩]
  · rfl
  · intro pairs
    exact ⟨sortPairs_chain pairs, rfl⟩
  · intro d name route args url args2 u h hz hlt hwalk hne hurl
    rw [Domain.ReverseURLm, h]
    simp only []
    rw [if_neg hz, if_neg hlt, hwalk]
    simp only []
    rw [if_pos (by exact List.length_pos.mpr hne), hurl]

/-- A one-static-route domain for the C8 witness. -/
def egDomainLogin : Domain :=
  { routes := [("login", { Name := "login", Path := "/login", Method := "GET" })] }

/-- Witness for C8: the zero-parameter route `/login` reverses verbatim and
the query-append conjunct reproduces the concrete booking URL. -/
theorem witness_C8 :
    (egDomainLogin.ReverseURLm "login" []).1 = "/login" ∧
    (egDomainC7.ReverseURLm "book" [("id", "42"), ("q", "x")]).1 =
      "/hotels/42/booking?q=x" ∧
    (egDomainC7.ReverseURLm "book" [("id", "42"), ("q", "x")]).1 = "/hotels/42/booking?q=x" ∨
      False := by
  refine Or.inl ⟨?_, ?_, ?_⟩
  · exact claim_C8.1 egDomainLogin "login" _ rfl rfl
  · exact claim_C8.2.1
  · exact claim_C8.2.2.2 egDomainC7 "book" _ [("id", "42"), ("q", "x")]
      "/hotels/42/booking" [("q", "x")] "/hotels/42/booking?q=x" rfl
      (by decide) (by decide) rfl (by decide) rfl

/-- Key membership is preserved by erasing a different key. -/
theorem mem_keysOf_eraseKey {α : Type} (k p : String) (l : List (String × α))
    (hne : p ≠ k) (hp : p ∈ keysOf l) : p ∈ keysOf (eraseKey k l) := by
  rw [← lookupKey_isSome_iff_mem_keys] at hp ⊢
  rw [lookupKey_eraseKey_ne _ _ _ hne]
  exact hp

/-- On a run where every parameter is supplied, the named walk succeeds and
the final map state is the input map with exactly the pattern's parameter
keys deleted. -/
theorem reverseComposeGo_final :
    ∀ (segs : List String) (acc : String) (args : List (String × String)),
      (∀ p ∈ paramNamesOf segs, p ∈ keysOf args) →
      (paramNamesOf segs).Nodup →
      (reverseComposeGo segs acc args).2 =
        args.filter (fun kv => kv.1 ∉ paramNamesOf segs) ∧
      (reverseComposeGo segs acc args).1.isSome = true := by
  intro segs
  induction segs with
  | nil =>
    intro acc args _ _
    constructor
    · rw [reverseComposeGo]
      simp [paramNamesOf]
    · rfl
  | cons seg rest ih =>
    intro acc args hsup hnd
    rw [reverseComposeGo]
    by_cases hse : isStrEmpty seg = true
    · have hnp : ¬(headChar seg = some ':' ∨ headChar seg = some '*') := by
        intro hc
        rw [isStrEmpty_param_false hc] at hse
        cases hse
      rw [if_pos hse]
      simp only [paramNamesOf_cons, if_neg hnp] at hsup hnd ⊢
      exact ih acc args hsup hnd
    · rw [if_neg hse]
      by_cases hpar : headChar seg = some ':' ∨ headChar seg = some '*'
      · simp only [paramNamesOf_cons, if_pos hpar] at hsup hnd ⊢
        show ((match lookupKey (strTail seg) args with
          | some v => reverseComposeGo rest (pathJoin acc v) (eraseKey (strTail seg) args)
          | none => ((none : Option String), args)).2 =
            args.filter (fun kv => kv.1 ∉ strTail seg :: paramNamesOf rest)) ∧ _
        have hmem := hsup (strTail seg) (List.mem_cons_self _ _)
        rw [← lookupKey_isSome_iff_mem_keys] at hmem
        cases hl : lookupKey (strTail seg) args with
        | none => rw [hl] at hmem; cases hmem
        | some v =>
          simp only []
          have hnotin : strTail seg ∉ paramNamesOf rest := (List.nodup_cons.mp hnd).1
          have hndr : (paramNamesOf rest).Nodup := (List.nodup_cons.mp hnd).2
          have hsup2 : ∀ p ∈ paramNamesOf rest, p ∈ keysOf (eraseKey (strTail seg) args) := by
            intro p hp
            have hne : p ≠ strTail seg := fun he => hnotin (he ▸ hp)
            exact mem_keysOf_eraseKey _ _ _ hne (hsup p (List.mem_cons_of_mem _ hp))
          obtain ⟨hfin, hsome⟩ := ih (pathJoin acc v) (eraseKey (strTail seg) args) hsup2 hndr
          refine ⟨?_, hsome⟩
          rw [hfin, eraseKey, List.filter_filter]
          apply List.filter_congr
          intro kv _
          by_cases h1 : kv.1 = strTail seg <;>
            by_cases h2 : kv.1 ∈ paramNamesOf rest <;>
            simp [h1, h2]
      · simp only [paramNamesOf_cons, if_neg hpar] at hsup hnd ⊢
        exact ih (pathJoin acc seg) args hsup hnd

/-- A two-parameter route for the C10 partial-drain conjunct. -/
def egDomainC10 : Domain :=
  { routes := [("r", { Name := "r", Path := "/a/:x/:y", Method := "GET" })] }

/-- Claim C10: `ReverseURLm` drains the caller's map in place (modelled by
the returned final map): on a successful run the final map is the input
map with every consumed parameter key deleted — exactly the entries that
became query parameters — and a failing run can leave the map partially
drained. -/
theorem claim_C10 :
    (∀ (d : Domain) (name : String) (route : Route) (args : List (String × String)),
      lookupKey name d.routes = some route →
      (∀ p ∈ paramNamesOf ((goSplitSlash route.Path).drop 1), p ∈ keysOf args) →
      (paramNamesOf ((goSplitSlash route.Path).drop 1)).Nodup →
      ¬(countParams route.Path = 0 ∧ args.length = 0) →
      ¬(args.length < countParams route.Path) →
      (d.ReverseURLm name args).2 =
        args.filter (fun kv => kv.1 ∉ paramNamesOf ((goSplitSlash route.Path).drop 1))) ∧
    ((egDomainC10.ReverseURLm "r" [("x", "1"), ("z", "2")]).1 = "" ∧
      (egDomainC10.ReverseURLm "r" [("x", "1"), ("z", "2")]).2 = [("z", "2")]) := by
  constructor
  · intro d name route args h hsup hnd hz hlt
    rw [Domain.ReverseURLm, h]
    simp only []
    rw [if_neg hz, if_neg hlt]
    obtain ⟨hfin, hsome⟩ :=
      reverseComposeGo_final ((goSplitSlash route.Path).drop 1) "/" args hsup hnd
    cases hwc : reverseComposeGo ((goSplitSlash route.Path).drop 1) "/" args with
    | mk first second =>
      rw [hwc] at hfin hsome
      cases first with
      | none => cases hsome
      | some url =>
        simp only []
        by_cases hq : second.length > 0
        · rw [if_pos hq]
          cases goURLReString (url ++ "?" ++ valuesEncode second) <;> exact hfin
        · rw [if_neg hq]
          cases goURLReString url <;> exact hfin
  · exact ⟨rfl, rfl⟩

/-- Witness for C10: reversing the booking route consumes `id` and leaves
only the query entry `q` in the caller's map. -/
theorem witness_C10 :
    (egDomainC7.ReverseURLm "book" [("id", "42"), ("q", "x")]).2 = [("q", "x")] := by
  have h := claim_C10.1 egDomainC7 "book"
    { Name := "book", Path := "/hotels/:id/booking", Method := "GET" }
    [("id", "42"), ("q", "x")] rfl (by decide) (by decide) (by decide) (by decide)
  exact h.trans (by decide)

/-! ### Claim C1: the reverse/lookup round trip

The round trip fails as stated when a parameter value contains a slash
(the counterexample below): `path.Join` keeps the embedded slash, giving
the composed URL extra segments the trie walk cannot match.  It also
fails for values the `url.Parse` re-validation rejects (an invalid
percent escape such as `a%b` makes `ReverseURLm` return `""`) or that
`URL.String` re-encodes (`"`, `<`, `>`, space, non-ASCII, ...).  The
amended statement therefore restricts segments and argument values to
clean single-segment strings over the URL-identity alphabet: `goodSeg`
captures exactly the strings for which `path.Join`, the `url.Parse` +
`URL.String` round trip, and the trie walk are all transparent. -/

/-- The characters `url.Parse` + `URL.String` pass through a path
unchanged: ASCII alphanumerics, the marks `-._~`, and the reserved
characters `$&+,:;=@` a path keeps verbatim.  Excludes `%` (escape
introducer), `?` and `#` (separators), and everything `URL.String`
re-encodes. -/
def urlSegChar (c : Char) : Bool :=
  (0x61 ≤ c.toNat && c.toNat ≤ 0x7a) || (0x41 ≤ c.toNat && c.toNat ≤ 0x5a) ||
    (0x30 ≤ c.toNat && c.toNat ≤ 0x39) ||
    (c.toNat = 0x2d || c.toNat = 0x5f || c.toNat = 0x2e || c.toNat = 0x7e) ||
    (c.toNat = 0x24 || c.toNat = 0x26 || c.toNat = 0x2b || c.toNat = 0x2c ||
      c.toNat = 0x3a || c.toNat = 0x3b || c.toNat = 0x3d || c.toNat = 0x40)

/-- A clean path segment / parameter value: non-empty, not a dot segment,
free of slashes, whitespace and ASCII control characters, and written in
the URL-identity alphabet (so the composed URL survives `url.Parse` +
`URL.String` unchanged). -/
def goodSeg (s : String) : Prop :=
  s ≠ "" ∧ s ≠ "." ∧ s ≠ ".." ∧
    ∀ c ∈ s.data, c ≠ '/' ∧ isSpaceChar c = false ∧ 0x20 ≤ c.toNat ∧
      c.toNat ≠ 0x7f ∧ urlSegChar c = true

instance goodSegDecidable (s : String) : Decidable (goodSeg s) :=
  decidable_of_iff (s ≠ "" ∧ s ≠ "." ∧ s ≠ ".." ∧
    ∀ c ∈ s.data, c ≠ '/' ∧ isSpaceChar c = false ∧ 0x20 ≤ c.toNat ∧
      c.toNat ≠ 0x7f ∧ urlSegChar c = true)
    Iff.rfl

theorem goodSeg_data_ne_nil {s : String} (h : goodSeg s) : s.data ≠ [] := by
  intro hd
  exact h.1 (strExt hd)

theorem goodSeg_not_isStrEmpty {s : String} (h : goodSeg s) : isStrEmpty s = false := by
  cases hd : s.data with
  | nil => exact absurd hd (goodSeg_data_ne_nil h)
  | cons c t =>
    have hc := h.2.2.2 c (by rw [hd]; exact List.mem_cons_self c t)
    rw [isStrEmpty, hd, List.all_cons]
    have : ¬(c = ' ' ∨ c = '\t' ∨ c = '\n' ∨ c = '\r') := by
      intro hor
      have : isSpaceChar c = true := by
        rw [isSpaceChar]
        exact decide_eq_true hor
      rw [hc.2.1] at this
      cases this
    simp [this]

theorem goodSeg_no_slash {s : String} (h : goodSeg s) : '/' ∉ s.data := by
  intro hc
  exact ((h.2.2.2 '/' hc).1) rfl

/-- `List.intercalate` over a nonempty tail, unfolded one step. -/
theorem intercalate_cons_ne (x : List Char) (xs : List (List Char)) (h : xs ≠ []) :
    List.intercalate ['/'] (x :: xs) = x ++ ['/'] ++ List.intercalate ['/'] xs := by
  cases xs with
  | nil => exact absurd rfl h
  | cons y ys => simp [List.intercalate, List.intersperse]

/-- `List.intercalate` with one element appended. -/
theorem intercalate_append_single (xs : List (List Char)) (v : List Char) (h : xs ≠ []) :
    List.intercalate ['/'] (xs ++ [v]) =
      List.intercalate ['/'] xs ++ ['/'] ++ v := by
  induction xs with
  | nil => exact absurd rfl h
  | cons x rest ih =>
    cases hr : rest with
    | nil =>
      subst hr
      rw [List.singleton_append, intercalate_cons_ne x [v] (by simp)]
      simp [List.intercalate]
    | cons y ys =>
      subst hr
      rw [List.cons_append, intercalate_cons_ne x ((y :: ys) ++ [v]) (by simp)]
      rw [intercalate_cons_ne x (y :: ys) (by simp)]
      rw [ih (by simp)]
      simp

/-- Splitting the rooted path built from slash-free segments recovers the
segments (with the leading empty component). -/
theorem goSplitSlash_mkPath (segs : List String)
    (hns : ∀ s ∈ segs, '/' ∉ s.data) (hne : segs ≠ []) :
    goSplitSlash (mkPath segs) = "" :: segs := by
  have hdata : (mkPath segs).data =
      List.intercalate ['/'] ([] :: segs.map String.data) := by
    rw [mkPath]
    rw [intercalate_cons_ne [] (segs.map String.data)
      (by intro hc; exact hne (List.map_eq_nil.mp hc))]
    rfl
  rw [goSplitSlash, hdata]
  rw [List.splitOn_intercalate ([] :: segs.map String.data) '/' ?_ (by simp)]
  · rw [List.map_cons]
    congr 1
    rw [List.map_map]
    have : (fun cs => (⟨cs⟩ : String)) ∘ String.data = id := by
      funext s
      rfl
    rw [this, List.map_id]
  · intro l hl
    rcases List.mem_cons.mp hl with hl | hl
    · subst hl
      simp
    · obtain ⟨s, hs, hsd⟩ := List.mem_map.mp hl
      subst hsd
      exact hns s hs

/-- The root path comes only from the empty segment list. -/
theorem mkPath_ne_root {segs : List String} (hne : segs ≠ [])
    (hgood : ∀ s ∈ segs, s ≠ "") : mkPath segs ≠ "/" := by
  cases segs with
  | nil => exact absurd rfl hne
  | cons s rest =>
    intro hc
    have hd : ('/' : Char) :: List.intercalate ['/'] ((s :: rest).map String.data) = ['/'] :=
      congrArg String.data hc
    have h2 : List.intercalate ['/'] ((s :: rest).map String.data) = [] := by
      injection hd
    cases rest with
    | nil =>
      rw [List.map_cons, List.map_nil] at h2
      rw [show List.intercalate ['/'] [s.data] = s.data by simp [List.intercalate]] at h2
      exact hgood s (by simp) (strExt h2)
    | cons y ys =>
      rw [List.map_cons, intercalate_cons_ne _ _ (by simp)] at h2
      simp at h2

/-- Folding the `path.Clean` stack over clean-or-empty segments stacks the
non-empty ones. -/
theorem cleanPush_fold (l : List String) :
    ∀ (st : List String), (∀ s ∈ l, goodSeg s ∨ s = "") →
      List.foldl (cleanPush true) st l = (l.filter (fun s => s ≠ "")).reverse ++ st := by
  induction l with
  | nil => intro st _; simp
  | cons s rest ih =>
    intro st hl
    rw [List.foldl_cons, List.filter_cons]
    rcases hl s (List.mem_cons_self s rest) with hg | hg
    · have hpush : cleanPush true st s = s :: st := by
        rw [cleanPush.eq_def, if_neg (by rw [not_or]; exact ⟨hg.1, hg.2.1⟩), if_neg hg.2.2.1]
      rw [hpush, ih (s :: st) (fun x hx => hl x (List.mem_cons_of_mem s hx))]
      rw [if_pos (by simpa using hg.1)]
      simp
    · subst hg
      have hpush : cleanPush true st "" = st := by
        rw [cleanPush.eq_def, if_pos (Or.inl rfl)]
      rw [hpush, ih st (fun x hx => hl x (List.mem_cons_of_mem _ hx))]
      rw [if_neg (by simp)]

/-- `path.Clean` on a rooted path whose split is a leading empty component
followed by clean-or-empty segments keeps exactly the non-empty ones. -/
theorem pathClean_of_split (p : String) (l : List String)
    (hsplit : goSplitSlash p = "" :: l)
    (hl : ∀ s ∈ l, goodSeg s ∨ s = "")
    (hlne : l.filter (fun s => s ≠ "") ≠ [])
    (hhead : headChar p = some '/') (hpne : p ≠ "") :
    pathClean p = mkPath (l.filter (fun s => s ≠ "")) := by
  rw [pathClean, if_neg hpne]
  simp only [hsplit, hhead, List.foldl_cons]
  have hpush : cleanPush true [] "" = [] := by
    rw [cleanPush.eq_def, if_pos (Or.inl rfl)]
  rw [if_pos trivial]
  simp only [decide_True]
  rw [hpush, cleanPush_fold l [] hl, List.append_nil, List.reverse_reverse]
  rw [if_neg (by simpa using hlne)]

/-- `path.Join` appends one clean segment to a clean rooted path. -/
theorem pathJoin_mkPath (accSegs : List String) (v : String)
    (hacc : ∀ s ∈ accSegs, goodSeg s) (hv : goodSeg v) :
    pathJoin (mkPath accSegs) v = mkPath (accSegs ++ [v]) := by
  have hmkne : mkPath accSegs ≠ "" := by
    intro hc
    have h2 : ('/' : Char) :: List.intercalate ['/'] (accSegs.map String.data) = [] :=
      congrArg String.data hc
    cases h2
  rw [pathJoin]
  rw [if_neg (by intro hc; exact hmkne hc.1), if_neg hmkne, if_neg hv.1]
  have hheadp : headChar (mkPath accSegs ++ "/" ++ v) = some '/' := by
    rw [headChar, strApp_data, strApp_data, mkPath]
    rfl
  have hpne : mkPath accSegs ++ "/" ++ v ≠ "" := by
    intro hc
    have := congrArg String.data hc
    rw [strApp_data, strApp_data, mkPath] at this
    cases this
  cases haccn : accSegs with
  | nil =>
    have hsplit : goSplitSlash (mkPath [] ++ "/" ++ v) = "" :: ["", v] := by
      have hdata : (mkPath [] ++ "/" ++ v).data =
          List.intercalate ['/'] [[], [], v.data] := by
        rw [strApp_data, strApp_data]
        rw [show (mkPath []).data = ['/'] from rfl]
        rw [intercalate_cons_ne [] [[], v.data] (by simp)]
        rw [intercalate_cons_ne [] [v.data] (by simp)]
        simp [List.intercalate]
      rw [goSplitSlash, hdata]
      rw [List.splitOn_intercalate [[], [], v.data] '/' ?_ (by simp)]
      · rfl
      · intro cs hcs
        rcases List.mem_cons.mp hcs with hcs | hcs
        · subst hcs; simp
        · rcases List.mem_cons.mp hcs with hcs | hcs
          · subst hcs; simp
          · rw [List.mem_singleton.mp hcs]
            exact goodSeg_no_slash hv
    have := pathClean_of_split (mkPath [] ++ "/" ++ v) ["", v] hsplit
      (by
        intro s hs
        rcases List.mem_cons.mp hs with hs | hs
        · exact Or.inr hs
        · rw [List.mem_singleton.mp hs]
          exact Or.inl hv)
      (by simp [hv.1])
      (by rw [haccn] at hheadp; exact hheadp)
      (by rw [haccn] at hpne; exact hpne)
    rw [this]
    have hfil : (["", v]).filter (fun s => s ≠ "") = [v] := by
      simp [List.filter, hv.1]
    rw [hfil]
    rfl
  | cons a rest =>
    rw [← haccn]
    have hne2 : accSegs ≠ [] := by rw [haccn]; simp
    have hsplit : goSplitSlash (mkPath accSegs ++ "/" ++ v) = "" :: (accSegs ++ [v]) := by
      have hdata : (mkPath accSegs ++ "/" ++ v).data =
          List.intercalate ['/'] ([] :: (accSegs ++ [v]).map String.data) := by
        rw [strApp_data, strApp_data, mkPath]
        rw [intercalate_cons_ne [] ((accSegs ++ [v]).map String.data)
          (by intro hc; exact hne2 (by simpa using List.map_eq_nil_iff.mp hc))]
        rw [List.map_append, List.map_singleton]
        rw [intercalate_append_single (accSegs.map String.data) v.data
          (by intro hc; exact hne2 (List.map_eq_nil_iff.mp hc))]
        simp [strApp_data]
      rw [goSplitSlash, hdata]
      rw [List.splitOn_intercalate ([] :: (accSegs ++ [v]).map String.data) '/' ?_ (by simp)]
      · rw [List.map_cons, List.map_map]
        have hid : (fun cs => (⟨cs⟩ : String)) ∘ String.data = id := by
          funext s
          rfl
        rw [hid, List.map_id]
      · intro cs hcs
        rcases List.mem_cons.mp hcs with hcs | hcs
        · subst hcs; simp
        · obtain ⟨s, hs, hsd⟩ := List.mem_map.mp hcs
          subst hsd
          rcases List.mem_append.mp hs with hs | hs
          · exact goodSeg_no_slash (hacc s hs)
          · rw [List.mem_singleton.mp hs]
            exact goodSeg_no_slash hv
    have hall : ∀ s ∈ accSegs ++ [v], goodSeg s := by
      intro s hs
      rcases List.mem_append.mp hs with hs | hs
      · exact hacc s hs
      · rw [List.mem_singleton.mp hs]
        exact hv
    have := pathClean_of_split (mkPath accSegs ++ "/" ++ v) (accSegs ++ [v]) hsplit
      (fun s hs => Or.inl (hall s hs))
      (by
        rw [List.filter_eq_self.mpr (fun s hs => by simpa using (hall s hs).1)]
        simp)
      hheadp hpne
    rw [this]
    rw [List.filter_eq_self.mpr (fun s hs => by simpa using (hall s hs).1)]

/-- The segments of the reverse-composed URL: parameters replaced by their
map values, literals kept. -/
def substSegs (segs : List String) (M : List (String × String)) : List String :=
  segs.map (fun s =>
    if headChar s = some ':' ∨ headChar s = some '*' then
      (lookupKey (strTail s) M).getD ""
    else s)

/-- The path parameters the trie walk collects for the substituted URL. -/
def paramsListOf (segs : List String) (M : List (String × String)) :
    List (String × String) :=
  segs.filterMap (fun s =>
    if headChar s = some ':' ∨ headChar s = some '*' then
      some (strTail s, (lookupKey (strTail s) M).getD "")
    else none)

/-- The linear trie a single pattern registers. -/
def chainNode : List String → String → TrieNode
  | [], v => ⟨some v, [], none, none⟩
  | s :: rest, v =>
    if headChar s = some ':' then ⟨none, [], some (strTail s, chainNode rest v), none⟩
    else ⟨none, [(s, chainNode rest v)], none, none⟩

theorem lookupKey_mem {α : Type} {k : String} {l : List (String × α)} {v : α}
    (h : lookupKey k l = some v) : (k, v) ∈ l := by
  induction l with
  | nil => cases h
  | cons kv rest ih =>
    obtain ⟨k2, v2⟩ := kv
    rw [lookupKey_cons] at h
    by_cases h2 : k2 = k
    · rw [if_pos h2] at h
      cases h
      subst h2
      exact List.mem_cons_self _ _
    · rw [if_neg h2] at h
      exact List.mem_cons_of_mem _ (ih h)

/-- `patternSegs` inverts `mkPath` on non-empty slash-free segments. -/
theorem patternSegs_mkPath (segs : List String)
    (hgood : ∀ s ∈ segs, s ≠ "" ∧ '/' ∉ s.data) :
    patternSegs (mkPath segs) = segs := by
  cases hs : segs with
  | nil => rfl
  | cons a rest =>
    rw [← hs, patternSegs]
    rw [if_neg (mkPath_ne_root (by rw [hs]; simp) (fun s hsm => (hgood s hsm).1))]
    rw [goSplitSlash_mkPath segs (fun s hsm => (hgood s hsm).2) (by rw [hs]; simp)]
    rfl

/-- `findSegs` agrees with `patternSegs` by definition. -/
theorem findSegs_mkPath (segs : List String)
    (hgood : ∀ s ∈ segs, s ≠ "" ∧ '/' ∉ s.data) :
    findSegs (mkPath segs) = segs :=
  patternSegs_mkPath segs hgood

/-- `countParams` of a built path is the number of parameter segments. -/
theorem countParams_mkPath (segs : List String)
    (hgood : ∀ s ∈ segs, s ≠ "" ∧ '/' ∉ s.data) :
    countParams (mkPath segs) = (paramNamesOf segs).length := by
  cases hs : segs with
  | nil =>
    rw [countParams]
    rw [show goSplitSlash (mkPath []) = ["", ""] from rfl]
    rfl
  | cons a rest =>
    rw [← hs, countParams]
    rw [goSplitSlash_mkPath segs (fun s hsm => (hgood s hsm).2) (by rw [hs]; simp)]
    rw [List.filter_cons]
    rw [if_neg (by simp [headChar])]
    rw [paramNamesOf, List.length_map]

/-- Inserting one pattern into the empty trie yields its chain. -/
theorem nodeAdd_chain (segs : List String) (v : String)
    (hnw : ∀ s ∈ segs, ¬headChar s = some '*') :
    nodeAdd TrieNode.empty segs v = .ok (chainNode segs v) := by
  induction segs with
  | nil => rfl
  | cons s rest ih =>
    have hnw2 : ∀ x ∈ rest, ¬headChar x = some '*' :=
      fun x hx => hnw x (List.mem_cons_of_mem _ hx)
    have ih2 : nodeAdd (TrieNode.mk none [] none none) rest v =
        Except.ok (chainNode rest v) := ih hnw2
    by_cases hp : headChar s = some ':'
    · simp [nodeAdd, TrieNode.empty, hp, chainNode]
      rw [ih2]
      rfl
    · simp [nodeAdd, TrieNode.empty, hp, hnw s (List.mem_cons_self s rest),
        chainNode, insertKey]
      rw [ih2]
      rfl

/-- Walking the chain with the substituted segments finds the payload with
the parameter list in pattern order. -/
theorem nodeFind_chain (segs : List String) (v : String)
    (M : List (String × String)) :
    ∀ (ps : List (String × String)),
      (∀ s ∈ segs, goodSeg s) →
      (∀ s ∈ segs, ¬headChar s = some '*') →
      (∀ s ∈ segs, headChar s = some ':' →
        ∃ w, lookupKey (strTail s) M = some w ∧ goodSeg w) →
      nodeFind (chainNode segs v) (substSegs segs M) ps =
        (some v, ps ++ paramsListOf segs M, false) := by
  induction segs with
  | nil =>
    intro ps _ _ _
    rw [substSegs, List.map_nil, nodeFind]
    rw [show (chainNode [] v).value = some v from rfl]
    rw [paramsListOf]
    simp
  | cons s rest ih =>
    intro ps hgood hnw hsupp
    have hgr : ∀ x ∈ rest, goodSeg x := fun x hx => hgood x (List.mem_cons_of_mem _ hx)
    have hnwr : ∀ x ∈ rest, ¬headChar x = some '*' :=
      fun x hx => hnw x (List.mem_cons_of_mem _ hx)
    have hsr : ∀ x ∈ rest, headChar x = some ':' →
        ∃ w, lookupKey (strTail x) M = some w ∧ goodSeg w :=
      fun x hx => hsupp x (List.mem_cons_of_mem _ hx)
    by_cases hp : headChar s = some ':'
    · obtain ⟨w, hw, hwg⟩ := hsupp s (List.mem_cons_self _ _) hp
      have hsub : substSegs (s :: rest) M = w :: substSegs rest M := by
        rw [substSegs, List.map_cons, if_pos (Or.inl hp), hw]
        rfl
      have hpl : paramsListOf (s :: rest) M =
          (strTail s, w) :: paramsListOf rest M := by
        rw [paramsListOf, List.filterMap_cons]
        rw [if_pos (Or.inl hp), hw]
        rfl
      rw [hsub, hpl, chainNode, if_pos hp, nodeFind]
      rw [if_neg (by rintro ⟨hw1, _⟩; exact hwg.1 hw1)]
      simp only [lookupKey_nil]
      rw [if_neg hwg.1]
      rw [ih (ps ++ [(strTail s, w)]) hgr hnwr hsr]
      rw [List.append_assoc]
      rfl
    · have hnp : ¬(headChar s = some ':' ∨ headChar s = some '*') := by
        rintro (hc | hc)
        · exact hp hc
        · exact hnw s (List.mem_cons_self _ _) hc
      have hsg := hgood s (List.mem_cons_self _ _)
      have hsub : substSegs (s :: rest) M = s :: substSegs rest M := by
        rw [substSegs, List.map_cons, if_neg hnp]
        rfl
      have hpl : paramsListOf (s :: rest) M = paramsListOf rest M := by
        rw [paramsListOf, List.filterMap_cons, if_neg hnp]
        rfl
      rw [hsub, hpl, chainNode, if_neg hp, nodeFind]
      rw [if_neg (by rintro ⟨hs1, _⟩; exact hsg.1 hs1)]
      have hlook : lookupKey s [(s, chainNode rest v)] = some (chainNode rest v) := by
        rw [lookupKey_cons, if_pos rfl]
      simp only [hlook]
      exact ih ps hgr hnwr hsr

/-- Erasing a key outside a pattern's parameter names does not change the
substituted segments. -/
theorem substSegs_eraseKey (segs : List String) (k : String)
    (M : List (String × String)) :
    k ∉ paramNamesOf segs →
    substSegs segs (eraseKey k M) = substSegs segs M := by
  induction segs with
  | nil => intro h2; rfl
  | cons s rest ih =>
    intro hk
    rw [paramNamesOf_cons] at hk
    by_cases hp : headChar s = some ':' ∨ headChar s = some '*'
    · rw [if_pos hp] at hk
      have hne : strTail s ≠ k := by
        intro hc
        apply hk
        rw [hc]
        exact List.mem_cons_self _ _
      rw [substSegs, substSegs, List.map_cons, List.map_cons,
        if_pos hp, if_pos hp, lookupKey_eraseKey_ne k (strTail s) M hne]
      have h2 := ih (fun hc => hk (List.mem_cons_of_mem _ hc))
      rw [substSegs, substSegs] at h2
      rw [h2]
    · rw [if_neg hp] at hk
      rw [substSegs, substSegs, List.map_cons, List.map_cons, if_neg hp, if_neg hp]
      have h2 := ih hk
      rw [substSegs, substSegs] at h2
      rw [h2]

/-- The substituted segments are clean when the pattern's segments and the
supplied values are. -/
theorem substSegs_good (segs : List String) (M : List (String × String))
    (hgood : ∀ s ∈ segs, goodSeg s)
    (hsupply : ∀ s ∈ segs, (headChar s = some ':' ∨ headChar s = some '*') →
      ∃ w, lookupKey (strTail s) M = some w ∧ goodSeg w) :
    ∀ x ∈ substSegs segs M, goodSeg x := by
  intro x hx
  rw [substSegs] at hx
  obtain ⟨s, hs, hmap⟩ := List.mem_map.mp hx
  by_cases hp : headChar s = some ':' ∨ headChar s = some '*'
  · rw [if_pos hp] at hmap
    obtain ⟨w, hw, hwg⟩ := hsupply s hs hp
    rw [hw] at hmap
    rw [show (some w).getD "" = w from rfl] at hmap
    rw [← hmap]
    exact hwg
  · rw [if_neg hp] at hmap
    rw [← hmap]
    exact hgood s hs

/-- Segments with no parameters substitute to themselves. -/
theorem substSegs_of_no_params (segs : List String) (M : List (String × String))
    (h : ∀ s ∈ segs, ¬(headChar s = some ':' ∨ headChar s = some '*')) :
    substSegs segs M = segs := by
  induction segs with
  | nil => rfl
  | cons s rest ih =>
    rw [substSegs, List.map_cons, if_neg (h s (List.mem_cons_self _ _))]
    have h2 := ih (fun x hx => h x (List.mem_cons_of_mem _ hx))
    rw [substSegs] at h2
    rw [h2]

/-- An empty parameter-name list means no segment is parameter-headed. -/
theorem no_params_of_paramNames_nil {segs : List String}
    (h : paramNamesOf segs = []) :
    ∀ s ∈ segs, ¬(headChar s = some ':' ∨ headChar s = some '*') := by
  intro s hs hp
  have hmem : strTail s ∈ paramNamesOf segs := by
    rw [paramNamesOf]
    exact List.mem_map_of_mem _ (List.mem_filter.mpr ⟨hs, by simpa using hp⟩)
  rw [h] at hmem
  exact List.not_mem_nil _ hmem

/-- A character of an intercalated segment list is a slash or a segment
character. -/
theorem mem_intercalate_slash (xs : List (List Char)) (c : Char) :
    c ∈ List.intercalate ['/'] xs → c = '/' ∨ ∃ x ∈ xs, c ∈ x := by
  induction xs with
  | nil =>
    intro h
    simp [List.intercalate] at h
  | cons x rest ih =>
    intro h
    cases hr : rest with
    | nil =>
      subst hr
      rw [show List.intercalate ['/'] [x] = x by simp [List.intercalate]] at h
      exact Or.inr ⟨x, List.mem_cons_self _ _, h⟩
    | cons y ys =>
      subst hr
      rw [intercalate_cons_ne x (y :: ys) (by simp)] at h
      rcases List.mem_append.mp h with h1 | h2
      · rcases List.mem_append.mp h1 with h3 | h4
        · exact Or.inr ⟨x, List.mem_cons_self _ _, h3⟩
        · exact Or.inl (by simpa using h4)
      · rcases ih h2 with h5 | ⟨z, hz, hcz⟩
        · exact Or.inl h5
        · exact Or.inr ⟨z, List.mem_cons_of_mem _ hz, hcz⟩

/-- A URL-identity character is a single ASCII byte, not the escape
introducer, and never re-encoded in a path. -/
theorem urlSegChar_props {c : Char} (h : urlSegChar c = true) :
    utf8Bytes c.toNat = [c.toNat] ∧ c.toNat ≠ 0x25 ∧
      shouldEscapePathB c.toNat = false := by
  rw [urlSegChar] at h
  simp only [Bool.or_eq_true, Bool.and_eq_true, decide_eq_true_eq] at h
  rcases h with (((⟨h1, h2⟩ | ⟨h1, h2⟩) | ⟨h1, h2⟩) | (((h1 | h1) | h1) | h1)) |
    (((((((h1 | h1) | h1) | h1) | h1) | h1) | h1) | h1)
  · exact ⟨by rw [utf8Bytes, if_pos (by omega)], by omega,
      by rw [shouldEscapePathB, if_pos (Or.inl ⟨h1, h2⟩)]⟩
  · exact ⟨by rw [utf8Bytes, if_pos (by omega)], by omega,
      by rw [shouldEscapePathB, if_pos (Or.inr (Or.inl ⟨h1, h2⟩))]⟩
  · exact ⟨by rw [utf8Bytes, if_pos (by omega)], by omega,
      by rw [shouldEscapePathB, if_pos (Or.inr (Or.inr ⟨h1, h2⟩))]⟩
  all_goals rw [h1]
  all_goals decide

/-- `unescape` is the identity on escape-free byte strings. -/
theorem unescapeBytes_id {l : List Nat} (h : ∀ b ∈ l, b ≠ 0x25) :
    unescapeBytes l = some l := by
  induction l with
  | nil => rfl
  | cons b rest ih =>
    rw [unescapeBytes.eq_def]
    simp only []
    rw [if_neg (h b (List.mem_cons_self _ _))]
    rw [ih (fun x hx => h x (List.mem_cons_of_mem _ hx))]
    rfl

/-- `escape` is the identity when no byte needs escaping. -/
theorem escapeBytes_id (esc : Nat → Bool) {l : List Nat}
    (h : ∀ b ∈ l, esc b = false) : escapeBytes esc l = l := by
  induction l with
  | nil => rfl
  | cons b rest ih =>
    rw [escapeBytes, if_neg (by rw [h b (List.mem_cons_self _ _)]; exact Bool.false_ne_true)]
    rw [ih (fun x hx => h x (List.mem_cons_of_mem _ hx))]

/-- The bytes of an all-single-byte character list. -/
theorem charsToBytes_ascii (l : List Char)
    (h : ∀ c ∈ l, utf8Bytes c.toNat = [c.toNat]) :
    charsToBytes l = l.map Char.toNat := by
  induction l with
  | nil => rfl
  | cons c rest ih =>
    rw [charsToBytes, h c (List.mem_cons_self _ _), List.map_cons,
      ih (fun x hx => h x (List.mem_cons_of_mem _ hx))]
    rfl

/-- Splitting at an absent marker returns the whole list. -/
theorem splitAtFirstChar_of_not_mem (m : Char) (l : List Char) (h : m ∉ l) :
    splitAtFirstChar m l = (l, none) := by
  induction l with
  | nil => rfl
  | cons c rest ih =>
    rw [splitAtFirstChar]
    rw [if_neg (fun hc => h (by rw [hc]; exact List.mem_cons_self _ _))]
    rw [ih (fun hc => h (List.mem_cons_of_mem _ hc))]

/-- Every character of a path built from URL-identity segments is `/` or a
URL-identity character, hence a clean single ASCII byte. -/
theorem mkPath_char_props (segs : List String)
    (hgood : ∀ s ∈ segs, goodSeg s) :
    ∀ c ∈ (mkPath segs).data,
      utf8Bytes c.toNat = [c.toNat] ∧ c.toNat ≠ 0x25 ∧
      shouldEscapePathB c.toNat = false ∧ 0x20 ≤ c.toNat ∧ c.toNat ≠ 0x7f ∧
      c ≠ '#' ∧ c ≠ '?' := by
  intro c hc
  have hdata : (mkPath segs).data =
      '/' :: List.intercalate ['/'] (segs.map String.data) := rfl
  rw [hdata] at hc
  have hslash : utf8Bytes ('/').toNat = [('/').toNat] ∧ ('/').toNat ≠ 0x25 ∧
      shouldEscapePathB ('/').toNat = false ∧ 0x20 ≤ ('/').toNat ∧
      ('/').toNat ≠ 0x7f ∧ ('/' : Char) ≠ '#' ∧ ('/' : Char) ≠ '?' := by
    refine ⟨by decide, by decide, by decide, by decide, by decide, by decide, by decide⟩
  rcases List.mem_cons.mp hc with h | h
  · rw [h]
    exact hslash
  · rcases mem_intercalate_slash _ c h with h2 | ⟨x, hx, hcx⟩
    · rw [h2]
      exact hslash
    · obtain ⟨s, hsm, hsd⟩ := List.mem_map.mp hx
      have hcs : c ∈ s.data := by rw [hsd]; exact hcx
      have hg := (hgood s hsm).2.2.2 c hcs
      obtain ⟨hu1, hu2, hu3⟩ := urlSegChar_props hg.2.2.2.2
      refine ⟨hu1, hu2, hu3, hg.2.2.1, hg.2.2.2.1, ?_, ?_⟩
      · intro hceq
        rw [hceq] at hg
        exact absurd hg.2.2.2.2 (by decide)
      · intro hceq
        rw [hceq] at hg
        exact absurd hg.2.2.2.2 (by decide)

theorem goURLReString_mkPath (segs : List String)
    (hgood : ∀ s ∈ segs, goodSeg s) :
    goURLReString (mkPath segs) = some (mkPath segs) := by
  have hchars := mkPath_char_props segs hgood
  have hsplit1 : splitAtFirstChar '#' (mkPath segs).data = ((mkPath segs).data, none) :=
    splitAtFirstChar_of_not_mem '#' _ (fun hmem => (hchars '#' hmem).2.2.2.2.2.1 rfl)
  have hsplit2 : splitAtFirstChar '?' (mkPath segs).data = ((mkPath segs).data, none) :=
    splitAtFirstChar_of_not_mem '?' _ (fun hmem => (hchars '?' hmem).2.2.2.2.2.2 rfl)
  have hbytes : charsToBytes (mkPath segs).data = (mkPath segs).data.map Char.toNat :=
    charsToBytes_ascii _ (fun c hc => (hchars c hc).1)
  have hre : reEncodePart shouldEscapePathB (mkPath segs).data =
      some (mkPath segs).data := by
    have hun : unescapeBytes (charsToBytes (mkPath segs).data) =
        some (charsToBytes (mkPath segs).data) := by
      refine unescapeBytes_id ?_
      intro b hb
      rw [hbytes] at hb
      obtain ⟨c, hc, hcb⟩ := List.mem_map.mp hb
      rw [← hcb]
      exact (hchars c hc).2.1
    have hesc : escapeBytes shouldEscapePathB (charsToBytes (mkPath segs).data) =
        charsToBytes (mkPath segs).data := by
      refine escapeBytes_id _ ?_
      intro b hb
      rw [hbytes] at hb
      obtain ⟨c, hc, hcb⟩ := List.mem_map.mp hb
      rw [← hcb]
      exact (hchars c hc).2.2.1
    rw [reEncodePart, hun]
    simp only []
    rw [if_pos hesc]
  have hctl : ((mkPath segs).data.any
      (fun c => c.toNat < 0x20 || c.toNat = 0x7f)) = false := by
    rw [List.any_eq_false]
    intro c hc
    have h2 := hchars c hc
    simp only [Bool.or_eq_true, decide_eq_true_eq, not_or]
    omega
  rw [goURLReString, hsplit1]
  simp only [hsplit2, hctl, hre]
  rfl

/-- The named segment walk on a chain pattern with every parameter supplied
composes exactly the substituted path and drains the map completely. -/
theorem reverseComposeGo_mkPath (segs : List String) :
    ∀ (accSegs : List String) (M : List (String × String)),
      (∀ s ∈ accSegs, goodSeg s) →
      (∀ s ∈ segs, goodSeg s) →
      (paramNamesOf segs).Nodup →
      (∀ s ∈ segs, (headChar s = some ':' ∨ headChar s = some '*') →
        ∃ w, lookupKey (strTail s) M = some w ∧ goodSeg w) →
      (∀ k ∈ keysOf M, k ∈ paramNamesOf segs) →
      reverseComposeGo segs (mkPath accSegs) M =
        (some (mkPath (accSegs ++ substSegs segs M)), []) := by
  induction segs with
  | nil =>
    intro accSegs M _ _ _ _ hkeys
    have hM : M = [] := by
      cases M with
      | nil => rfl
      | cons kv rest =>
        have h2 := hkeys kv.1 (List.mem_map_of_mem _ (List.mem_cons_self _ _))
        simp [paramNamesOf] at h2
    subst hM
    rw [show substSegs [] [] = [] from rfl, List.append_nil]
    rfl
  | cons s rest ih =>
    intro accSegs M hacc hgood hnd hsupply hkeys
    have hsg := hgood s (List.mem_cons_self _ _)
    have hgr : ∀ x ∈ rest, goodSeg x := fun x hx => hgood x (List.mem_cons_of_mem _ hx)
    rw [reverseComposeGo]
    rw [if_neg (by simp [goodSeg_not_isStrEmpty hsg])]
    by_cases hp : headChar s = some ':' ∨ headChar s = some '*'
    · obtain ⟨w, hw, hwg⟩ := hsupply s (List.mem_cons_self _ _) hp
      rw [paramNamesOf_cons, if_pos hp] at hnd hkeys
      rw [if_pos hp]
      show (match lookupKey (strTail s) M with
        | some v => reverseComposeGo rest (pathJoin (mkPath accSegs) v)
            (eraseKey (strTail s) M)
        | none => ((none : Option String), M)) =
        (some (mkPath (accSegs ++ substSegs (s :: rest) M)), [])
      rw [hw]
      show reverseComposeGo rest (pathJoin (mkPath accSegs) w) (eraseKey (strTail s) M) =
        (some (mkPath (accSegs ++ substSegs (s :: rest) M)), [])
      rw [pathJoin_mkPath accSegs w hacc hwg]
      have hnotin : strTail s ∉ paramNamesOf rest := (List.nodup_cons.mp hnd).1
      have hndr : (paramNamesOf rest).Nodup := (List.nodup_cons.mp hnd).2
      have hsupr : ∀ x ∈ rest, (headChar x = some ':' ∨ headChar x = some '*') →
          ∃ w2, lookupKey (strTail x) (eraseKey (strTail s) M) = some w2 ∧ goodSeg w2 := by
        intro x hx hxp
        obtain ⟨w2, hw2, hw2g⟩ := hsupply x (List.mem_cons_of_mem _ hx) hxp
        refine ⟨w2, ?_, hw2g⟩
        rw [lookupKey_eraseKey_ne (strTail s) (strTail x) M ?_]
        · exact hw2
        · intro hc
          apply hnotin
          rw [← hc]
          rw [paramNamesOf]
          exact List.mem_map_of_mem _ (List.mem_filter.mpr ⟨hx, by simpa using hxp⟩)
      have hkeysr : ∀ k ∈ keysOf (eraseKey (strTail s) M), k ∈ paramNamesOf rest := by
        intro k hk
        rw [keysOf, eraseKey] at hk
        obtain ⟨kv, hkv, hfst⟩ := List.mem_map.mp hk
        have h2 := List.mem_filter.mp hkv
        have hne : k ≠ strTail s := by
          rw [← hfst]
          simpa using h2.2
        have hkM : k ∈ keysOf M := by
          rw [keysOf, ← hfst]
          exact List.mem_map_of_mem _ h2.1
        rcases List.mem_cons.mp (hkeys k hkM) with hc | hc
        · exact absurd hc hne
        · exact hc
      rw [ih (accSegs ++ [w]) (eraseKey (strTail s) M)
        (by
          intro x hx
          rcases List.mem_append.mp hx with h | h
          · exact hacc x h
          · rw [List.mem_singleton.mp h]
            exact hwg)
        hgr hndr hsupr hkeysr]
      rw [substSegs_eraseKey rest (strTail s) M hnotin]
      have hsub : substSegs (s :: rest) M = w :: substSegs rest M := by
        rw [substSegs, List.map_cons, if_pos hp, hw]
        rfl
      rw [hsub, List.append_assoc]
      rfl
    · rw [paramNamesOf_cons, if_neg hp] at hnd hkeys
      rw [if_neg hp]
      rw [pathJoin_mkPath accSegs s hacc hsg]
      rw [ih (accSegs ++ [s]) M
        (by
          intro x hx
          rcases List.mem_append.mp hx with h | h
          · exact hacc x h
          · rw [List.mem_singleton.mp h]
            exact hsg)
        hgr hnd (fun x hx hxp => hsupply x (List.mem_cons_of_mem _ hx) hxp) hkeys]
      have hsub : substSegs (s :: rest) M = s :: substSegs rest M := by
        rw [substSegs, List.map_cons, if_neg hp]
        rfl
      rw [hsub, List.append_assoc]
      rfl

/-- The collected path parameters report exactly the map's value for every
pattern parameter. -/
theorem pathParamsGet_paramsListOf (segs : List String) (M : List (String × String)) :
    ∀ p ∈ paramNamesOf segs,
      pathParamsGet (paramsListOf segs M) p = (lookupKey p M).getD "" := by
  induction segs with
  | nil =>
    intro p hp
    simp [paramNamesOf] at hp
  | cons s rest ih =>
    intro p hp
    rw [paramNamesOf_cons] at hp
    by_cases hc : headChar s = some ':' ∨ headChar s = some '*'
    · rw [if_pos hc] at hp
      have hpl : paramsListOf (s :: rest) M =
          (strTail s, (lookupKey (strTail s) M).getD "") :: paramsListOf rest M := by
        rw [paramsListOf, List.filterMap_cons]
        rw [if_pos hc]
        rfl
      rw [hpl, pathParamsGet]
      by_cases hps : strTail s = p
      · rw [if_pos hps, hps]
      · rw [if_neg hps]
        rcases List.mem_cons.mp hp with h | h
        · exact absurd h.symm hps
        · exact ih p h
    · rw [if_neg hc] at hp
      have hpl : paramsListOf (s :: rest) M = paramsListOf rest M := by
        rw [paramsListOf, List.filterMap_cons]
        rw [if_neg hc]
        rfl
      rw [hpl]
      exact ih p hp

/-- `AddRoute` of a clean chain pattern into a fresh domain: no error, one
tree, one route. -/
theorem addRoute_single (d0 : Domain) (route : Route) (segs : List String)
    (hm : isStrEmpty route.Method = false)
    (hpath : route.Path = mkPath segs)
    (htrees : d0.trees = []) (hroutes : d0.routes = [])
    (hgood : ∀ s ∈ segs, s ≠ "" ∧ '/' ∉ s.data)
    (hnw : ∀ s ∈ segs, ¬headChar s = some '*') :
    d0.AddRoute route =
      (none, { d0 with trees := [(route.Method, chainNode segs route.Name)],
                       routes := [(route.Name, route)] }) := by
  have htadd : treeAdd TrieNode.empty route.Path route.Name =
      Except.ok (chainNode segs route.Name) := by
    rw [hpath, treeAdd, patternSegs_mkPath segs hgood, nodeAdd_chain segs route.Name hnw]
  rw [Domain.AddRoute]
  rw [if_neg (by rw [hm]; exact Bool.false_ne_true)]
  rw [htrees, hroutes]
  rw [show lookupKey route.Method ([] : List (String × TrieNode)) = none from rfl]
  simp only [Option.getD_none, htadd]
  rw [show insertKey route.Method TrieNode.empty ([] : List (String × TrieNode)) =
    [(route.Method, TrieNode.empty)] from rfl]
  rw [show insertKey route.Method (chainNode segs route.Name)
      [(route.Method, TrieNode.empty)] =
      [(route.Method, chainNode segs route.Name)] by rw [insertKey, if_pos rfl]]
  rw [show insertKey route.Name route ([] : List (String × Route)) =
    [(route.Name, route)] from rfl]

/-- `Lookup` on a domain holding one chain tree for the request method. -/
theorem lookup_single_chain (d : Domain) (m n : String) (route : Route)
    (segs : List String) (M : List (String × String))
    (htree : lookupKey m d.trees = some (chainNode segs n))
    (hroutes : lookupKey n d.routes = some route)
    (hgood : ∀ s ∈ segs, goodSeg s)
    (hnw : ∀ s ∈ segs, ¬headChar s = some '*')
    (hsupply : ∀ s ∈ segs, headChar s = some ':' →
      ∃ w, lookupKey (strTail s) M = some w ∧ goodSeg w) :
    d.Lookup { Method := m, Path := mkPath (substSegs segs M) } =
      (some route, some (paramsListOf segs M), false) := by
  have hsupply2 : ∀ s ∈ segs, (headChar s = some ':' ∨ headChar s = some '*') →
      ∃ w, lookupKey (strTail s) M = some w ∧ goodSeg w := by
    intro s hs hp
    rcases hp with hp | hp
    · exact hsupply s hs hp
    · exact absurd hp (hnw s hs)
  have hsubgood : ∀ x ∈ substSegs segs M, goodSeg x :=
    substSegs_good segs M hgood hsupply2
  have hfind : treeFind (chainNode segs n) (mkPath (substSegs segs M)) =
      (some n, paramsListOf segs M, false) := by
    rw [treeFind]
    rw [findSegs_mkPath (substSegs segs M)
      (fun x hx => ⟨(hsubgood x hx).1, goodSeg_no_slash (hsubgood x hx)⟩)]
    have h2 := nodeFind_chain segs n M [] hgood hnw hsupply
    rw [List.nil_append] at h2
    exact h2
  rw [Domain.Lookup]
  rw [if_neg (by
    rintro ⟨h1, h2⟩
    have h3 : (!isStrEmpty "") = true := h1
    exact absurd h3 (by decide))]
  rw [Domain.lookupCore]
  have hlrt : d.lookupRouteTree
      { Method := m, Path := mkPath (substSegs segs M) } = some (chainNode segs n) := by
    rw [Domain.lookupRouteTree, htree]
  rw [hlrt]
  simp only [hfind, hroutes]

/-- `ReverseURLm` on a domain route whose pattern is a clean chain, with all
parameters supplied by clean values, yields the substituted path. -/
theorem reverseURLm_mkPath (d : Domain) (name : String) (route : Route)
    (segs : List String) (M : List (String × String))
    (hroute : lookupKey name d.routes = some route)
    (hpath : route.Path = mkPath segs)
    (hgood : ∀ s ∈ segs, goodSeg s)
    (hnd : (paramNamesOf segs).Nodup)
    (hsupply : ∀ s ∈ segs, (headChar s = some ':' ∨ headChar s = some '*') →
      ∃ w, lookupKey (strTail s) M = some w ∧ goodSeg w)
    (hkeys : ∀ k ∈ keysOf M, k ∈ paramNamesOf segs) :
    (d.ReverseURLm name M).1 = mkPath (substSegs segs M) := by
  have hgood2 : ∀ s ∈ segs, s ≠ "" ∧ '/' ∉ s.data :=
    fun s hs => ⟨(hgood s hs).1, goodSeg_no_slash (hgood s hs)⟩
  have hcnt : countParams route.Path = (paramNamesOf segs).length := by
    rw [hpath]
    exact countParams_mkPath segs hgood2
  rw [Domain.ReverseURLm, hroute]
  simp only []
  by_cases hc0 : paramNamesOf segs = []
  · have hM : M = [] := by
      cases M with
      | nil => rfl
      | cons kv rest =>
        have h2 := hkeys kv.1 (List.mem_map_of_mem _ (List.mem_cons_self _ _))
        rw [hc0] at h2
        exact absurd h2 (List.not_mem_nil _)
    subst hM
    rw [if_pos ⟨by rw [hcnt, hc0]; rfl, rfl⟩]
    rw [hpath, substSegs_of_no_params segs [] (no_params_of_paramNames_nil hc0)]
  · have hpos : 0 < (paramNamesOf segs).length := List.length_pos.mpr hc0
    have hsegs_ne : segs ≠ [] := by
      intro hc
      rw [hc] at hc0
      exact hc0 rfl
    have hsubset : ∀ p ∈ paramNamesOf segs, p ∈ keysOf M := by
      intro p hp
      rw [paramNamesOf] at hp
      obtain ⟨s, hsf, hstail⟩ := List.mem_map.mp hp
      have hsmem := (List.mem_filter.mp hsf).1
      have hsp : headChar s = some ':' ∨ headChar s = some '*' := by
        simpa using (List.mem_filter.mp hsf).2
      obtain ⟨w, hw, _⟩ := hsupply s hsmem hsp
      rw [← lookupKey_isSome_iff_mem_keys, ← hstail, hw]
      rfl
    have hlen : (paramNamesOf segs).length ≤ M.length := by
      have h2 := (List.subperm_of_subset hnd hsubset).length_le
      rw [keysOf, List.length_map] at h2
      exact h2
    rw [if_neg (by rintro ⟨h1, _⟩; rw [hcnt] at h1; omega)]
    rw [if_neg (by intro h1; rw [hcnt] at h1; omega)]
    have hdrop : (goSplitSlash route.Path).drop 1 = segs := by
      rw [hpath, goSplitSlash_mkPath segs
        (fun s hs => goodSeg_no_slash (hgood s hs)) hsegs_ne]
      rfl
    rw [hdrop]
    rw [show ("/" : String) = mkPath [] from rfl]
    rw [reverseComposeGo_mkPath segs [] M
      (fun s hs => absurd hs (List.not_mem_nil _)) hgood hnd hsupply hkeys]
    simp only []
    rw [if_neg (by simp)]
    rw [List.nil_append]
    rw [goURLReString_mkPath (substSegs segs M)
      (substSegs_good segs M hgood hsupply)]

/-- The counterexample domain for C1: one route `/h/:id` under `GET`. -/
def egDomainC1 : Domain :=
  (({ Host := "localhost" } : Domain).AddRoute
    { Name := "h", Path := "/h/:id", Method := "GET",
      Controller := "C", Action := "index" }).2

/-- Claim C1, counterexample to the literal statement: the registered route
`/h/:id` has the single parameter `id`, and the map `{id: "a/b"}` supplies
a value for it, yet the URL `ReverseURLm` composes (`/h/a/b` — `path.Join`
keeps the embedded slash) does not look up back to the route: `Lookup`
returns no route at all.  The round trip as stated fails for parameter
values containing a slash. -/
theorem counterexample_C1 :
    paramNamesOf (patternSegs "/h/:id") = ["id"] ∧
    lookupKey "id" [("id", "a/b")] = some "a/b" ∧
    (egDomainC1.ReverseURLm "h" [("id", "a/b")]).1 = "/h/a/b" ∧
    (egDomainC1.Lookup { Method := "GET", Path := "/h/a/b" }).1 = none :=
  ⟨rfl, rfl, rfl, rfl⟩

/-- Claim C1 (corrected): the reverse/lookup round trip holds on a domain
with a registered chain route once the parameter values are clean path
segments over the URL-identity alphabet (no slash, no `%`/`?`/`#`, nothing
`URL.String` re-encodes).  For a fresh domain, a route whose pattern is
built from such segments (no catch-all, distinct parameter names)
registers without error;
if the argument map supplies a clean-segment value for every `:param` of
the pattern and contains no foreign keys, then looking up (with the
route's method) the URL `ReverseURLm` produces returns that route, with
`rts = false` and path parameters listing exactly the pattern's parameters
with the map's values — i.e. M restricted to the pattern's parameters, as
the final conjunct states via `PathParams.Get`. -/
theorem claim_C1 (d0 : Domain) (route : Route) (segs : List String)
    (M : List (String × String))
    (hm : isStrEmpty route.Method = false)
    (hpath : route.Path = mkPath segs)
    (htrees : d0.trees = []) (hroutes0 : d0.routes = [])
    (hgood : ∀ s ∈ segs, goodSeg s)
    (hnw : ∀ s ∈ segs, ¬headChar s = some '*')
    (hnd : (paramNamesOf segs).Nodup)
    (hsupply : ∀ s ∈ segs, headChar s = some ':' →
      ∃ w, lookupKey (strTail s) M = some w ∧ goodSeg w)
    (hkeys : ∀ k ∈ keysOf M, k ∈ paramNamesOf segs) :
    (d0.AddRoute route).1 = none ∧
    (d0.AddRoute route).2.Lookup
      { Method := route.Method,
        Path := ((d0.AddRoute route).2.ReverseURLm route.Name M).1 } =
      (some route, some (paramsListOf segs M), false) ∧
    ∀ p ∈ paramNamesOf segs,
      pathParamsGet (paramsListOf segs M) p = (lookupKey p M).getD "" := by
  have hgood2 : ∀ s ∈ segs, s ≠ "" ∧ '/' ∉ s.data :=
    fun s hs => ⟨(hgood s hs).1, goodSeg_no_slash (hgood s hs)⟩
  have hsupply2 : ∀ s ∈ segs, (headChar s = some ':' ∨ headChar s = some '*') →
      ∃ w, lookupKey (strTail s) M = some w ∧ goodSeg w := by
    intro s hs hp
    rcases hp with hp | hp
    · exact hsupply s hs hp
    · exact absurd hp (hnw s hs)
  have hadd := addRoute_single d0 route segs hm hpath htrees hroutes0 hgood2 hnw
  have hroute : lookupKey route.Name
      ({ d0 with trees := [(route.Method, chainNode segs route.Name)],
                 routes := [(route.Name, route)] } : Domain).routes = some route := by
    show lookupKey route.Name [(route.Name, route)] = some route
    rw [lookupKey_cons, if_pos rfl]
  have htree : lookupKey route.Method
      ({ d0 with trees := [(route.Method, chainNode segs route.Name)],
                 routes := [(route.Name, route)] } : Domain).trees =
      some (chainNode segs route.Name) := by
    show lookupKey route.Method [(route.Method, chainNode segs route.Name)] =
      some (chainNode segs route.Name)
    rw [lookupKey_cons, if_pos rfl]
  have hsnd : (d0.AddRoute route).2 =
      { d0 with trees := [(route.Method, chainNode segs route.Name)],
                routes := [(route.Name, route)] } := by
    rw [hadd]
  refine ⟨by rw [hadd], ?_, pathParamsGet_paramsListOf segs M⟩
  rw [hsnd]
  rw [reverseURLm_mkPath _ route.Name route segs M hroute hpath hgood hnd hsupply2 hkeys]
  exact lookup_single_chain _ route.Method route.Name route segs M htree hroute
    hgood hnw hsupply

/-- The witness route for C1: the booking pattern. -/
def egRouteC1 : Route :=
  { Name := "hotel_info", Path := "/hotels/:id/booking", Method := "GET",
    Controller := "HotelController", Action := "info" }

/-- A fresh domain for the C1 witness. -/
def egDomainC1base : Domain := { Host := "localhost" }

/-- Witness for C1: registering `/hotels/:id/booking` on a fresh domain and
round-tripping with `{id: "12345"}` returns the route with path parameter
`id = 12345`. -/
theorem witness_C1 :
    (egDomainC1base.AddRoute egRouteC1).1 = none ∧
    (egDomainC1base.AddRoute egRouteC1).2.Lookup
      { Method := egRouteC1.Method,
        Path := ((egDomainC1base.AddRoute egRouteC1).2.ReverseURLm egRouteC1.Name
          [("id", "12345")]).1 } =
      (some egRouteC1,
        some (paramsListOf ["hotels", ":id", "booking"] [("id", "12345")]), false) ∧
    ∀ p ∈ paramNamesOf ["hotels", ":id", "booking"],
      pathParamsGet (paramsListOf ["hotels", ":id", "booking"] [("id", "12345")]) p =
        (lookupKey p [("id", "12345")]).getD "" :=
  claim_C1 egDomainC1base egRouteC1 ["hotels", ":id", "booking"] [("id", "12345")]
    rfl rfl rfl rfl (by decide) (by decide) (by decide)
    (by
      intro s hs hp
      simp only [List.mem_cons, List.not_mem_nil, or_false] at hs
      rcases hs with rfl | rfl | rfl
      · exact absurd hp (by decide)
      · exact ⟨"12345", by decide⟩
      · exact absurd hp (by decide))
    (by decide)

end AahRouter
